import Mathlib

/-!
# Verification of the reflex reactive state-management core

This development gives a shallow embedding, in Lean 4, of the core of the
reflex library (a TypeScript port of re-frame):

* the reaction graph (`src/reaction.ts`, class `Reaction`),
* the two-phase interceptor pipeline (`src/interceptor.ts`),
* the invalidation bridge (`src/db.ts`, `updateAppDbWithPatches`),
* the `do-fx` / event-handler interceptors (`src/fx.ts`, `src/events.ts`),
* the event-queue finite state machine (`src/router.ts`, class `EventQueue`),

and proves properties of the embedded definitions.

Conventions of the embedding:

* The object graph of `Reaction` instances is represented by numbering the
  nodes with natural numbers.  The static part of a node (its `computeFn` and
  its `deps` array) lives in an environment `REnv`; the mutable part
  (`dependents`, `watchers`, `dirty`, `scheduled`, `value`, `version`,
  `depsVersions`) lives in a store `Nat → NState`.
* JavaScript `undefined` for a cached value is `Option.none`; a `computeFn`
  returns `Option V` so that a handler returning `undefined` is expressible.
* `fast-deep-equal` is structural equality of the modelled values.
* JavaScript exceptions are modelled with `Except`.
* Methods whose recursion is bounded only by the (documented, not enforced)
  acyclicity of the dependency graph take an explicit fuel argument; with
  fuel `0` they return the state unchanged.  On an acyclic graph every run of
  the original code is reproduced by a sufficiently large fuel.
* Side observations that the original code performs by calling callbacks are
  recorded in logs: `computes` records each invocation of a node's
  `computeFn`, `notifs` records each invocation of a watcher callback, and
  `tasks` records the `queueMicrotask` callbacks scheduled by
  `scheduleRecompute`.  `consoleLog` and the tracing helpers (`withTrace`,
  `mergeTrace`) only produce debug output and are not modelled.
-/

namespace Reflex

/-- Structural equality, modelling the `fast-deep-equal` predicate `isEqual`
that `reaction.ts` imports and uses for both the dependency-version vector
comparison and the output comparison. -/
def fastDeepEqual {α : Type} [DecidableEq α] (a b : α) : Bool :=
  decide (a = b)

/-- The mutable fields of one `Reaction` object (`reaction.ts` lines 7-18).
`dependents` is a JS `Set` (kept duplicate-free, insertion order);
`watchers` is the array of registered callbacks, identified by numbers. -/
structure NState (V : Type) where
  dependents : List Nat
  watchers : List Nat
  dirty : Bool
  scheduled : Bool
  value : Option V
  version : Nat
  depsVersions : List Nat
deriving Repr, DecidableEq

/-- The immutable fields of one `Reaction` object: the compute function and
the dependency array (constructor arguments).  `deps = []` stands for both
`undefined` and an empty array; `isRoot` is true exactly in those cases. -/
structure RNode (V : Type) where
  deps : List Nat
  computeFn : List (Option V) → Option V

/-- The static dependency graph: node index to node. -/
def REnv (V : Type) : Type := Nat → RNode V

/-- The world the reaction graph methods act on: the store of node states,
the log of `computeFn` invocations, the log of watcher notifications
(node, watcher), and the queue of microtasks scheduled by
`scheduleRecompute` (node indices). -/
structure Eff (V : Type) where
  store : Nat → NState V
  computes : List Nat
  notifs : List (Nat × Nat)
  tasks : List Nat

/-- Point update of a store. -/
def upd {V : Type} (s : Nat → NState V) (i : Nat) (st : NState V) : Nat → NState V :=
  fun k => if k = i then st else s k

/-- `isAlive` getter: a node is alive iff it has watchers or dependents. -/
def isAlive {V : Type} (st : NState V) : Bool :=
  !st.watchers.isEmpty || !st.dependents.isEmpty

/-- `isRoot` getter: `deps === undefined || deps.length === 0`. -/
def isRoot {V : Type} (n : RNode V) : Bool :=
  n.deps.isEmpty

/-- The `deps.map(d => d.getDepValue(notifyWatchers))` loop of
`recomputeIfNeeded`: recompute each dependency in order (threading the
state) and read back its `(value, version)` pair, exactly as
`getDepValue` does. -/
def pullDeps {V : Type} (rec : Nat → Eff V → Eff V) :
    List Nat → Eff V → Eff V × List (Option V × Nat)
  | [], e => (e, [])
  | d :: rest, e =>
    let e1 := rec d e
    let pair := ((e1.store d).value, (e1.store d).version)
    let (e2, tl) := pullDeps rec rest e1
    (e2, pair :: tl)

/-- The tail of `recomputeIfNeeded`: clear `dirty` unconditionally, increment
`version` exactly when the output changed, and when `notifyWatchers && changed`
and there are watchers, invoke every watcher callback (logged in `notifs`). -/
def finishRecompute {V : Type} (notify : Bool) (i : Nat) (changed : Bool)
    (e1 : Eff V) : Eff V :=
  let st1 := e1.store i
  let st2 := { st1 with
    dirty := false
    version := if changed then st1.version + 1 else st1.version }
  { e1 with
    store := upd e1.store i st2
    notifs := e1.notifs ++
      (if notify && changed && !st2.watchers.isEmpty
        then st2.watchers.map (fun w => (i, w)) else []) }

/-- The body of `recomputeIfNeeded` between the dirty check and the tail,
returning the `changed` flag together with the updated world.  `rec` is the
recursive entry point used by `getDepValue` on the dependencies.

* root node: invoke `computeFn()`, store the value, `changed := true`;
* derived node: pull `(value, version)` from every dependency, compare the
  current version vector with the cached one using `isEqual`; invoke
  `computeFn` only when there is no cached value or the vector changed;
  `changed := !isEqual(newVal, value)`; store the new value only when it
  changed; always store the new version vector in that branch. -/
def recomputeBranch {V : Type} [DecidableEq V] (env : REnv V)
    (rec : Nat → Eff V → Eff V) (i : Nat) (e : Eff V) : Bool × Eff V :=
  if isRoot (env i) then
    (true, { e with
      store := upd e.store i { e.store i with value := (env i).computeFn [] }
      computes := e.computes ++ [i] })
  else
    let pr := pullDeps rec (env i).deps e
    let values := pr.2.map Prod.fst
    let currentVersions := pr.2.map Prod.snd
    let sti := pr.1.store i
    let versionsChanged := !fastDeepEqual currentVersions sti.depsVersions
    if sti.value.isNone || versionsChanged then
      let newVal := (env i).computeFn values
      let changed := !fastDeepEqual newVal sti.value
      (changed, { pr.1 with
        store := upd pr.1.store i { sti with
          value := if changed then newVal else sti.value
          depsVersions := currentVersions }
        computes := pr.1.computes ++ [i] })
    else
      (false, pr.1)

/-- `Reaction.recomputeIfNeeded(notifyWatchers)` (`reaction.ts` lines 76-139),
with fuel for the recursion through `getDepValue`: a no-op unless `dirty`,
otherwise run `recomputeBranch` followed by `finishRecompute`. -/
def recompute {V : Type} [DecidableEq V] (env : REnv V) (notify : Bool) :
    Nat → Nat → Eff V → Eff V
  | 0, _, e => e
  | fuel + 1, i, e =>
    if (e.store i).dirty = false then e
    else
      let ce := recomputeBranch env (recompute env notify fuel) i e
      finishRecompute notify i ce.1 ce.2

/-- `getDepValue(notifyWatchers)`: recompute if needed, then return the
`(value, version)` pair. -/
def getDepValue {V : Type} [DecidableEq V] (env : REnv V) (notify : Bool)
    (fuel i : Nat) (e : Eff V) : Eff V × (Option V × Nat) :=
  let e1 := recompute env notify fuel i e
  (e1, ((e1.store i).value, (e1.store i).version))

/-- `scheduleRecompute` (`reaction.ts` lines 67-74): if already scheduled do
nothing, else set the flag and enqueue a microtask for this node.  Running
the queued task (see `flushTasks`) clears the flag and recomputes. -/
def scheduleRecompute {V : Type} (i : Nat) (e : Eff V) : Eff V :=
  let st := e.store i
  if st.scheduled then e
  else { e with
    store := upd e.store i { st with scheduled := true }
    tasks := e.tasks ++ [i] }

/-- The `for (const c of this.dependents) c.markDirty()` loop. -/
def markDirtyList {V : Type} (rec : Nat → Eff V → Eff V) :
    List Nat → Eff V → Eff V
  | [], e => e
  | d :: rest, e => markDirtyList rec rest (rec d e)

/-- `Reaction.markDirty` (`reaction.ts` lines 60-65), with fuel for the
recursion through the dependents: set `dirty`, recursively mark every
dependent dirty, then — only if the node is alive — schedule a coalesced
recompute. -/
def markDirty {V : Type} (env : REnv V) : Nat → Nat → Eff V → Eff V
  | 0, _, e => e
  | fuel + 1, i, e =>
    let st := e.store i
    let e1 := { e with store := upd e.store i { st with dirty := true } }
    let e2 := markDirtyList (markDirty env fuel) st.dependents e1
    if isAlive (e2.store i) then scheduleRecompute i e2 else e2

/-- Running the microtask queue: each queued callback clears the node's
`scheduled` flag and calls `recomputeIfNeeded()` (with watcher notification,
the default). -/
def flushTasks {V : Type} [DecidableEq V] (env : REnv V) (fuel : Nat) :
    List Nat → Eff V → Eff V
  | [], e => e
  | i :: rest, e =>
    let st := e.store i
    let e1 := { e with store := upd e.store i { st with scheduled := false } }
    flushTasks env fuel rest (recompute env true fuel i e1)

/-- The fields reset by `disposeIfUnused` (`reaction.ts` lines 161-165). -/
def resetState {V : Type} (st : NState V) : NState V :=
  { st with
    value := none
    version := 0
    depsVersions := []
    dirty := false
    scheduled := false }

/-- The `for (const d of this.deps) { d.dependents.delete(this); d.disposeIfUnused() }`
loop of `disposeIfUnused`: `self` is the node being disposed, `rec` the
recursive disposal call. -/
def disposeList {V : Type} (rec : Nat → Eff V → Eff V) (self : Nat) :
    List Nat → Eff V → Eff V
  | [], e => e
  | d :: rest, e =>
    let std := e.store d
    -- `d.dependents.delete(this)`: a JS `Set` holds each element once, so
    -- deleting `self` removes every occurrence
    let e1 := { e with
      store := upd e.store d
        ({ std with dependents := std.dependents.filter (fun x => x ≠ self) }) }
    disposeList rec self rest (rec d e1)

/-- `Reaction.disposeIfUnused` (`reaction.ts` lines 158-185), with fuel for
the recursion through the dependency chain: a no-op on an alive node;
otherwise reset the cached value, version, version vector and flags, then
remove this node from each dependency's dependent set and recursively
dispose any dependency that became unused. -/
def disposeIfUnused {V : Type} (env : REnv V) : Nat → Nat → Eff V → Eff V
  | 0, _, e => e
  | fuel + 1, i, e =>
    if isAlive (e.store i) then e
    else
      let e1 := { e with store := upd e.store i (resetState (e.store i)) }
      disposeList (disposeIfUnused env fuel) i (env i).deps e1

/-- `Reaction.unwatch(fn)` (`reaction.ts` lines 50-58): remove the callback
if present (splice of the first occurrence); if that removed the last
watcher, call `disposeIfUnused`. -/
def unwatch {V : Type} (env : REnv V) (fuel i w : Nat) (e : Eff V) : Eff V :=
  let st := e.store i
  if w ∈ st.watchers then
    let st1 := { st with watchers := st.watchers.erase w }
    let e1 := { e with store := upd e.store i st1 }
    if st1.watchers.isEmpty then disposeIfUnused env fuel i e1 else e1
  else e

/-- The dependency graph is acyclic.  The embedding numbers the nodes
topologically: every dependency has a smaller index than its dependents.
(The spec documents acyclicity as a precondition that is not enforced at
runtime; on a cyclic graph the original code would recurse forever.) -/
def TopoEnv {V : Type} (env : REnv V) : Prop :=
  ∀ j, ∀ d ∈ (env j).deps, d < j

@[simp] theorem upd_same {V : Type} (s : Nat → NState V) (i : Nat) (st : NState V) :
    upd s i st i = st := by
  simp [upd]

theorem upd_other {V : Type} (s : Nat → NState V) {i k : Nat} (st : NState V)
    (h : k ≠ i) : upd s i st k = s k := by
  simp [upd, h]

/-- Facts relating the reaction-graph world before and after any prefix of a
recompute wave: clean nodes are untouched, the dirty set only shrinks, the
compute and notification logs only grow, the microtask queue is untouched,
each node's compute function runs at most once more (and only if the node
was dirty, leaving it clean), and a clean node receives no notifications. -/
structure Step {V : Type} (e r : Eff V) : Prop where
  cleanFixed : ∀ k, (e.store k).dirty = false → r.store k = e.store k
  dirtyMono : ∀ k, (r.store k).dirty = true → (e.store k).dirty = true
  compExt : ∃ t, r.computes = e.computes ++ t
  notifExt : ∃ t, r.notifs = e.notifs ++ t
  tasksEq : r.tasks = e.tasks
  compBound : ∀ k, r.computes.count k ≤ e.computes.count k + 1 ∧
    (e.computes.count k < r.computes.count k →
      (e.store k).dirty = true ∧ (r.store k).dirty = false)
  notifClean : ∀ k, (e.store k).dirty = false →
    r.notifs.countP (fun p => p.1 = k) = e.notifs.countP (fun p => p.1 = k)

theorem Step.refl {V : Type} (e : Eff V) : Step e e where
  cleanFixed := fun _ _ => rfl
  dirtyMono := fun _ h => h
  compExt := ⟨[], by simp⟩
  notifExt := ⟨[], by simp⟩
  tasksEq := rfl
  compBound := fun _ => ⟨by omega, fun h => absurd h (by omega)⟩
  notifClean := fun _ _ => rfl

theorem Step.compMono {V : Type} {e r : Eff V} (s : Step e r) (k : Nat) :
    e.computes.count k ≤ r.computes.count k := by
  obtain ⟨t, ht⟩ := s.compExt
  simp [ht, List.count_append]

theorem Step.trans {V : Type} {e r q : Eff V} (a : Step e r) (b : Step r q) :
    Step e q where
  cleanFixed := fun k h => by
    have h1 := a.cleanFixed k h
    have h2 := b.cleanFixed k (by rw [h1]; exact h)
    rw [h2, h1]
  dirtyMono := fun k h => a.dirtyMono k (b.dirtyMono k h)
  compExt := by
    obtain ⟨t, ht⟩ := a.compExt
    obtain ⟨u, hu⟩ := b.compExt
    exact ⟨t ++ u, by rw [hu, ht, List.append_assoc]⟩
  notifExt := by
    obtain ⟨t, ht⟩ := a.notifExt
    obtain ⟨u, hu⟩ := b.notifExt
    exact ⟨t ++ u, by rw [hu, ht, List.append_assoc]⟩
  tasksEq := by rw [b.tasksEq, a.tasksEq]
  compBound := by
    intro k
    have amono := a.compMono k
    have bmono := b.compMono k
    have ab := a.compBound k
    have bb := b.compBound k
    constructor
    · -- overall at most one new invocation of k
      rcases Nat.lt_or_ge (e.computes.count k) (r.computes.count k) with hlt | hge
      · -- the first part already invoked k, so k is clean in r and the
        -- second part cannot invoke it again
        have hk := (ab.2 hlt).2
        rcases Nat.lt_or_ge (r.computes.count k) (q.computes.count k) with hlt2 | hge2
        · have := (bb.2 hlt2).1
          rw [hk] at this
          exact absurd this (by simp)
        · omega
      · omega
    · intro hlt
      rcases Nat.lt_or_ge (r.computes.count k) (q.computes.count k) with hlt2 | hge2
      · have h1 := (bb.2 hlt2).1
        exact ⟨a.dirtyMono k h1, (bb.2 hlt2).2⟩
      · have hlt1 : e.computes.count k < r.computes.count k := by omega
        have h1 := ab.2 hlt1
        have hfix := b.cleanFixed k h1.2
        exact ⟨h1.1, by rw [hfix]; exact h1.2⟩
  notifClean := fun k h => by
    have h1 := a.cleanFixed k h
    have h2 := b.notifClean k (by rw [h1]; exact h)
    rw [h2, a.notifClean k h]

theorem finishRecompute_store_ne {V : Type} {notify : Bool} {i k : Nat}
    {c : Bool} {e1 : Eff V} (h : k ≠ i) :
    (finishRecompute notify i c e1).store k = e1.store k := by
  simp [finishRecompute, upd_other _ _ h]

theorem finishRecompute_store_self {V : Type} (notify : Bool) (i : Nat)
    (c : Bool) (e1 : Eff V) :
    (finishRecompute notify i c e1).store i = { e1.store i with
      dirty := false
      version := if c then (e1.store i).version + 1 else (e1.store i).version } := by
  simp [finishRecompute]

theorem finishRecompute_computes {V : Type} (notify : Bool) (i : Nat)
    (c : Bool) (e1 : Eff V) :
    (finishRecompute notify i c e1).computes = e1.computes := rfl

theorem finishRecompute_tasks {V : Type} (notify : Bool) (i : Nat)
    (c : Bool) (e1 : Eff V) :
    (finishRecompute notify i c e1).tasks = e1.tasks := rfl

theorem finishRecompute_notifs {V : Type} (notify : Bool) (i : Nat)
    (c : Bool) (e1 : Eff V) :
    (finishRecompute notify i c e1).notifs = e1.notifs ++
      (if notify && c && !(e1.store i).watchers.isEmpty
        then (e1.store i).watchers.map (fun w => (i, w)) else []) := rfl

theorem finishRecompute_notifs_countP_ne {V : Type} {notify : Bool}
    {i k : Nat} {c : Bool} {e1 : Eff V} (h : i ≠ k) :
    (finishRecompute notify i c e1).notifs.countP (fun p => p.1 = k) =
      e1.notifs.countP (fun p => p.1 = k) := by
  rw [finishRecompute_notifs, List.countP_append]
  have hz : (if notify && c && !(e1.store i).watchers.isEmpty
      then (e1.store i).watchers.map (fun w => (i, w)) else []).countP
        (fun p => p.1 = k) = 0 := by
    split
    · apply List.countP_eq_zero.2
      intro p hp
      simp only [List.mem_map] at hp
      obtain ⟨w, _, rfl⟩ := hp
      simp [h]
    · rfl
  omega

theorem recomputeBranch_store_ne {V : Type} [DecidableEq V] {env : REnv V}
    {rec : Nat → Eff V → Eff V} {i k : Nat} {e : Eff V} (h : k ≠ i) :
    (recomputeBranch env rec i e).2.store k =
      (if isRoot (env i) then e.store k
        else (pullDeps rec (env i).deps e).1.store k) := by
  unfold recomputeBranch
  by_cases hroot : isRoot (env i) = true
  · simp [hroot, upd_other _ _ h]
  · simp only [hroot, if_neg, Bool.false_eq_true, if_false]
    split <;> simp [upd_other _ _ h]

theorem recomputeBranch_computes_count_ne {V : Type} [DecidableEq V]
    {env : REnv V} {rec : Nat → Eff V → Eff V} {i k : Nat} {e : Eff V}
    (h : k ≠ i) :
    (recomputeBranch env rec i e).2.computes.count k =
      (if isRoot (env i) then e.computes.count k
        else (pullDeps rec (env i).deps e).1.computes.count k) := by
  unfold recomputeBranch
  by_cases hroot : isRoot (env i) = true
  · simp [hroot, List.count_append, List.count_singleton, h]
  · simp only [hroot, Bool.false_eq_true, if_false]
    split <;> simp [List.count_append, List.count_singleton, h]

theorem recomputeBranch_notifs {V : Type} [DecidableEq V] {env : REnv V}
    {rec : Nat → Eff V → Eff V} {i : Nat} {e : Eff V} :
    (recomputeBranch env rec i e).2.notifs =
      (if isRoot (env i) then e.notifs
        else (pullDeps rec (env i).deps e).1.notifs) := by
  unfold recomputeBranch
  by_cases hroot : isRoot (env i) = true
  · simp [hroot]
  · simp only [hroot, Bool.false_eq_true, if_false]
    split <;> simp

theorem recomputeBranch_tasks {V : Type} [DecidableEq V] {env : REnv V}
    {rec : Nat → Eff V → Eff V} {i : Nat} {e : Eff V} :
    (recomputeBranch env rec i e).2.tasks =
      (if isRoot (env i) then e.tasks
        else (pullDeps rec (env i).deps e).1.tasks) := by
  unfold recomputeBranch
  by_cases hroot : isRoot (env i) = true
  · simp [hroot]
  · simp only [hroot, Bool.false_eq_true, if_false]
    split <;> simp

/-- On a topologically numbered graph, recomputing node `i` leaves every node
above `i` untouched: its state, its count of compute invocations and its
count of notifications. -/
theorem recompute_above {V : Type} [DecidableEq V] {env : REnv V}
    (notify : Bool) (htopo : TopoEnv env) :
    ∀ fuel i e k, i < k →
      ((recompute env notify fuel i e).store k = e.store k ∧
       (recompute env notify fuel i e).computes.count k = e.computes.count k ∧
       (recompute env notify fuel i e).notifs.countP (fun p => p.1 = k) =
         e.notifs.countP (fun p => p.1 = k)) := by
  intro fuel
  induction fuel with
  | zero => intro i e k _; exact ⟨rfl, rfl, rfl⟩
  | succ fuel ih =>
    intro i e k hk
    by_cases hd : (e.store i).dirty = false
    · simp [recompute, hd]
    · have hkne : k ≠ i := by omega
      -- facts about the dependency pull: every dependency of `i` is below
      -- `i`, hence below `k`, so nothing at `k` changes
      have hpull : ∀ ds e', (∀ d ∈ ds, d < i) →
          ((pullDeps (recompute env notify fuel) ds e').1.store k = e'.store k ∧
           (pullDeps (recompute env notify fuel) ds e').1.computes.count k =
             e'.computes.count k ∧
           (pullDeps (recompute env notify fuel) ds e').1.notifs.countP
             (fun p => p.1 = k) = e'.notifs.countP (fun p => p.1 = k)) := by
        intro ds
        induction ds with
        | nil => intro e' _; exact ⟨rfl, rfl, rfl⟩
        | cons d rest ihds =>
          intro e' hds
          have hdk : d < k := lt_trans (hds d (by simp)) hk
          have h1 := ih d e' k hdk
          have h2 := ihds (recompute env notify fuel d e')
            (fun x hx => hds x (by simp [hx]))
          simp only [pullDeps]
          exact ⟨h2.1.trans h1.1, h2.2.1.trans h1.2.1, h2.2.2.trans h1.2.2⟩
      have hps := hpull (env i).deps e (fun d hd' => htopo i d hd')
      simp only [recompute]
      rw [if_neg hd]
      rw [finishRecompute_store_ne hkne, finishRecompute_computes,
        finishRecompute_notifs_countP_ne (fun hik => hkne hik.symm)]
      rw [recomputeBranch_store_ne hkne, recomputeBranch_computes_count_ne hkne,
        recomputeBranch_notifs]
      by_cases hroot : isRoot (env i) = true <;>
        simp [hroot, hps.1, hps.2.1, hps.2.2]

theorem appendExt_trans {α : Type} {a b c : List α}
    (h1 : ∃ t, b = a ++ t) (h2 : ∃ t, c = b ++ t) : ∃ t, c = a ++ t := by
  obtain ⟨t, rfl⟩ := h1
  obtain ⟨u, rfl⟩ := h2
  exact ⟨t ++ u, List.append_assoc _ _ _⟩

theorem pullDeps_step {V : Type} {rec : Nat → Eff V → Eff V}
    (hrec : ∀ d e', Step e' (rec d e')) :
    ∀ ds e, Step e (pullDeps rec ds e).1 := by
  intro ds
  induction ds with
  | nil => intro e; exact Step.refl e
  | cons d rest ih =>
    intro e
    simp only [pullDeps]
    exact (hrec d e).trans (ih (rec d e))

/-- If every recursive call in a dependency pull leaves position `k` alone,
so does the whole pull. -/
theorem pullDeps_at {V : Type} {rec : Nat → Eff V → Eff V} (k : Nat) :
    ∀ ds e, (∀ d ∈ ds, ∀ e',
        ((rec d e').store k = e'.store k ∧
         (rec d e').computes.count k = e'.computes.count k ∧
         (rec d e').notifs.countP (fun p => p.1 = k) =
           e'.notifs.countP (fun p => p.1 = k))) →
      ((pullDeps rec ds e).1.store k = e.store k ∧
       (pullDeps rec ds e).1.computes.count k = e.computes.count k ∧
       (pullDeps rec ds e).1.notifs.countP (fun p => p.1 = k) =
         e.notifs.countP (fun p => p.1 = k)) := by
  intro ds
  induction ds with
  | nil => intro e _; exact ⟨rfl, rfl, rfl⟩
  | cons d rest ih =>
    intro e h
    have h1 := h d (by simp) e
    have h2 := ih (rec d e) (fun x hx e' => h x (by simp [hx]) e')
    simp only [pullDeps]
    exact ⟨h2.1.trans h1.1, h2.2.1.trans h1.2.1, h2.2.2.trans h1.2.2⟩

theorem recomputeBranch_root_eq {V : Type} [DecidableEq V] {env : REnv V}
    {rec : Nat → Eff V → Eff V} {i : Nat} {e : Eff V}
    (hroot : isRoot (env i) = true) :
    recomputeBranch env rec i e = (true, { e with
      store := upd e.store i { e.store i with value := (env i).computeFn [] }
      computes := e.computes ++ [i] }) := by
  simp [recomputeBranch, hroot]

theorem recomputeBranch_invoke_eq {V : Type} [DecidableEq V] {env : REnv V}
    {rec : Nat → Eff V → Eff V} {i : Nat} {e : Eff V}
    (hroot : isRoot (env i) = false)
    (hinv : (((pullDeps rec (env i).deps e).1.store i).value.isNone ||
      !fastDeepEqual ((pullDeps rec (env i).deps e).2.map Prod.snd)
        ((pullDeps rec (env i).deps e).1.store i).depsVersions) = true) :
    recomputeBranch env rec i e =
      (!fastDeepEqual
          ((env i).computeFn ((pullDeps rec (env i).deps e).2.map Prod.fst))
          ((pullDeps rec (env i).deps e).1.store i).value,
        { (pullDeps rec (env i).deps e).1 with
          store := upd (pullDeps rec (env i).deps e).1.store i
            { (pullDeps rec (env i).deps e).1.store i with
              value := if !fastDeepEqual
                  ((env i).computeFn
                    ((pullDeps rec (env i).deps e).2.map Prod.fst))
                  ((pullDeps rec (env i).deps e).1.store i).value
                then (env i).computeFn
                  ((pullDeps rec (env i).deps e).2.map Prod.fst)
                else ((pullDeps rec (env i).deps e).1.store i).value
              depsVersions := (pullDeps rec (env i).deps e).2.map Prod.snd }
          computes := (pullDeps rec (env i).deps e).1.computes ++ [i] }) := by
  rw [recomputeBranch]
  rw [if_neg (by simp [hroot])]
  simp only [hinv, if_true]

theorem recomputeBranch_skip_eq {V : Type} [DecidableEq V] {env : REnv V}
    {rec : Nat → Eff V → Eff V} {i : Nat} {e : Eff V}
    (hroot : isRoot (env i) = false)
    (hinv : (((pullDeps rec (env i).deps e).1.store i).value.isNone ||
      !fastDeepEqual ((pullDeps rec (env i).deps e).2.map Prod.snd)
        ((pullDeps rec (env i).deps e).1.store i).depsVersions) = false) :
    recomputeBranch env rec i e = (false, (pullDeps rec (env i).deps e).1) := by
  rw [recomputeBranch]
  rw [if_neg (by simp [hroot])]
  simp only [hinv, Bool.false_eq_true, if_false]

theorem recompute_unfold {V : Type} [DecidableEq V] {env : REnv V}
    {notify : Bool} {fuel i : Nat} {e : Eff V}
    (hd : (e.store i).dirty = true) :
    recompute env notify (fuel + 1) i e =
      finishRecompute notify i
        (recomputeBranch env (recompute env notify fuel) i e).1
        (recomputeBranch env (recompute env notify fuel) i e).2 := by
  simp only [recompute]
  rw [if_neg (by simp [hd])]

/-- A full `recomputeIfNeeded` call is a `Step`: on a topologically numbered
(acyclic) graph it touches only dirty nodes, only shrinks the dirty set,
extends the logs, leaves the task queue alone, runs each node's compute
function at most once, and notifies no clean node's watchers. -/
theorem recompute_step {V : Type} [DecidableEq V] {env : REnv V}
    (notify : Bool) (htopo : TopoEnv env) :
    ∀ fuel i e, Step e (recompute env notify fuel i e) := by
  intro fuel
  induction fuel with
  | zero => intro i e; exact Step.refl e
  | succ fuel ih =>
    intro i e
    by_cases hd : (e.store i).dirty = true
    case neg =>
      have heq : recompute env notify (fuel + 1) i e = e := by
        simp only [recompute]
        rw [if_pos]
        revert hd
        cases (e.store i).dirty <;> simp
      rw [heq]
      exact Step.refl e
    case pos =>
      rw [recompute_unfold hd]
      by_cases hroot : isRoot (env i) = true
      · -- root node: compute unconditionally, changed = true
        rw [recomputeBranch_root_eq hroot]
        constructor
        · intro k hk
          have hki : k ≠ i := fun h => by rw [h, hd] at hk; cases hk
          rw [finishRecompute_store_ne hki]
          simp [upd_other _ _ hki]
        · intro k hk
          by_cases hki : k = i
          · subst hki
            rw [finishRecompute_store_self] at hk
            simp at hk
          · rw [finishRecompute_store_ne hki] at hk
            simp only at hk
            rwa [upd_other _ _ hki] at hk
        · exact ⟨[i], by rw [finishRecompute_computes]⟩
        · exact ⟨_, finishRecompute_notifs _ _ _ _⟩
        · rw [finishRecompute_tasks]
        · intro k
          rw [finishRecompute_computes]
          show (e.computes ++ [i]).count k ≤ _ ∧ _
          by_cases hki : k = i
          · subst hki
            have hone : List.count k [k] = 1 := by simp
            constructor
            · simp [List.count_append, hone]
            · intro _
              refine ⟨hd, ?_⟩
              rw [finishRecompute_store_self]
          · have hz : List.count k [i] = 0 :=
              List.count_eq_zero.mpr (by simp [hki])
            have hcnt : (e.computes ++ [i]).count k = e.computes.count k := by
              simp [List.count_append, hz]
            rw [hcnt]
            exact ⟨by omega, fun h => absurd h (by omega)⟩
        · intro k hk
          have hki : k ≠ i := fun h => by rw [h, hd] at hk; cases hk
          rw [finishRecompute_notifs_countP_ne (fun h => hki h.symm)]
      · -- derived node
        have hroot' : isRoot (env i) = false := by
          revert hroot; cases isRoot (env i) <;> simp
        have hstep := pullDeps_step (fun d e' => ih d e') (env i).deps e
        have hab := pullDeps_at i (env i).deps e
          (fun d hd' e' => recompute_above notify htopo fuel d e' i (htopo i d hd'))
        by_cases hinv : (((pullDeps (recompute env notify fuel) (env i).deps e).1.store i).value.isNone ||
            !fastDeepEqual
              ((pullDeps (recompute env notify fuel) (env i).deps e).2.map Prod.snd)
              ((pullDeps (recompute env notify fuel) (env i).deps e).1.store i).depsVersions) = true
        · rw [recomputeBranch_invoke_eq hroot' hinv]
          constructor
          · intro k hk
            have hki : k ≠ i := fun h => by rw [h, hd] at hk; cases hk
            rw [finishRecompute_store_ne hki]
            show upd _ i _ k = _
            rw [upd_other _ _ hki]
            exact hstep.cleanFixed k hk
          · intro k hk
            by_cases hki : k = i
            · subst hki
              rw [finishRecompute_store_self] at hk
              simp at hk
            · rw [finishRecompute_store_ne hki] at hk
              simp only at hk
              rw [upd_other _ _ hki] at hk
              exact hstep.dirtyMono k hk
          · exact appendExt_trans hstep.compExt
              ⟨[i], by rw [finishRecompute_computes]⟩
          · exact appendExt_trans hstep.notifExt
              ⟨_, finishRecompute_notifs _ _ _ _⟩
          · rw [finishRecompute_tasks]
            show (pullDeps _ _ _).1.tasks = _
            exact hstep.tasksEq
          · intro k
            rw [finishRecompute_computes]
            show ((pullDeps _ _ _).1.computes ++ [i]).count k ≤ _ ∧ _
            by_cases hki : k = i
            · subst hki
              have hone : List.count k [k] = 1 := by simp
              have hcnt : ((pullDeps (recompute env notify fuel) (env k).deps e).1.computes ++ [k]).count k =
                  e.computes.count k + 1 := by
                simp [List.count_append, hone, hab.2.1]
              rw [hcnt]
              refine ⟨le_refl _, fun _ => ⟨hd, ?_⟩⟩
              rw [finishRecompute_store_self]
            · have hz : List.count k [i] = 0 :=
                List.count_eq_zero.mpr (by simp [hki])
              have hcnt : ((pullDeps (recompute env notify fuel) (env i).deps e).1.computes ++ [i]).count k =
                  (pullDeps (recompute env notify fuel) (env i).deps e).1.computes.count k := by
                simp [List.count_append, hz]
              rw [hcnt]
              refine ⟨(hstep.compBound k).1, fun h => ?_⟩
              have h2 := (hstep.compBound k).2 h
              refine ⟨h2.1, ?_⟩
              rw [finishRecompute_store_ne hki]
              show (upd _ i _ k).dirty = false
              rw [upd_other _ _ hki]
              exact h2.2
          · intro k hk
            have hki : k ≠ i := fun h => by rw [h, hd] at hk; cases hk
            rw [finishRecompute_notifs_countP_ne (fun h => hki h.symm)]
            show (pullDeps _ _ _).1.notifs.countP _ = _
            exact hstep.notifClean k hk
        · have hinv' : (((pullDeps (recompute env notify fuel) (env i).deps e).1.store i).value.isNone ||
              !fastDeepEqual
                ((pullDeps (recompute env notify fuel) (env i).deps e).2.map Prod.snd)
                ((pullDeps (recompute env notify fuel) (env i).deps e).1.store i).depsVersions) = false := by
            revert hinv
            cases (((pullDeps (recompute env notify fuel) (env i).deps e).1.store i).value.isNone ||
              !fastDeepEqual
                ((pullDeps (recompute env notify fuel) (env i).deps e).2.map Prod.snd)
                ((pullDeps (recompute env notify fuel) (env i).deps e).1.store i).depsVersions) <;> simp
          rw [recomputeBranch_skip_eq hroot' hinv']
          have hnotifs : (finishRecompute notify i false
              (pullDeps (recompute env notify fuel) (env i).deps e).1).notifs =
              (pullDeps (recompute env notify fuel) (env i).deps e).1.notifs := by
            rw [finishRecompute_notifs]
            simp
          constructor
          · intro k hk
            have hki : k ≠ i := fun h => by rw [h, hd] at hk; cases hk
            rw [finishRecompute_store_ne hki]
            exact hstep.cleanFixed k hk
          · intro k hk
            by_cases hki : k = i
            · subst hki
              rw [finishRecompute_store_self] at hk
              simp at hk
            · rw [finishRecompute_store_ne hki] at hk
              exact hstep.dirtyMono k hk
          · rw [finishRecompute_computes]
            exact hstep.compExt
          · obtain ⟨u, hu⟩ := hstep.notifExt
            exact ⟨u, by rw [hnotifs, hu]⟩
          · rw [finishRecompute_tasks]
            exact hstep.tasksEq
          · intro k
            rw [finishRecompute_computes]
            refine ⟨(hstep.compBound k).1, fun h => ?_⟩
            have h2 := (hstep.compBound k).2 h
            refine ⟨h2.1, ?_⟩
            by_cases hki : k = i
            · subst hki
              rw [finishRecompute_store_self]
            · rw [finishRecompute_store_ne hki]
              exact h2.2
          · intro k hk
            rw [hnotifs]
            exact hstep.notifClean k hk

theorem upd_upd {V : Type} (s : Nat → NState V) (i : Nat) (a b : NState V) :
    upd (upd s i a) i b = upd s i b := by
  funext k
  by_cases h : k = i <;> simp [upd, h]

theorem upd_self {V : Type} (s : Nat → NState V) (i : Nat) :
    upd s i (s i) = s := by
  funext k
  by_cases h : k = i <;> simp [upd, h]

/-- The `depValues` local of `recomputeIfNeeded`: the world after pulling
every dependency of node `i`, together with their `(value, version)` pairs. -/
def depPull {V : Type} [DecidableEq V] (env : REnv V) (notify : Bool)
    (fuel i : Nat) (e : Eff V) : Eff V × List (Option V × Nat) :=
  pullDeps (recompute env notify fuel) (env i).deps e

/-- On a topologically numbered graph, pulling the dependencies of `i` does
not touch node `i` itself: its state, compute count and notification count
are unchanged. -/
theorem depPull_at_self {V : Type} [DecidableEq V] {env : REnv V}
    (notify : Bool) (htopo : TopoEnv env) (fuel i : Nat) (e : Eff V) :
    ((depPull env notify fuel i e).1.store i = e.store i ∧
     (depPull env notify fuel i e).1.computes.count i = e.computes.count i ∧
     (depPull env notify fuel i e).1.notifs.countP (fun p => p.1 = i) =
       e.notifs.countP (fun p => p.1 = i)) :=
  pullDeps_at i (env i).deps e
    (fun d hd' e' => recompute_above notify htopo fuel d e' i (htopo i d hd'))

/-- Claim C3: in one invalidation wave on an acyclic dependency graph — in
particular through a diamond, where a shared node is reachable on two
distinct dependency paths — every node's `computeFn` is invoked at most
once: the first pull recomputes it and clears its dirty flag, and any node
that is already clean when pulled again is left completely untouched
(`getDepValue` returns the memoized `(value, version)` pair) with no further
`computeFn` invocation. -/
theorem claim_C3_shared_node_computes_at_most_once {V : Type} [DecidableEq V]
    (env : REnv V) (notify : Bool) (htopo : TopoEnv env) (fuel i : Nat)
    (e : Eff V) (k : Nat) :
    (recompute env notify fuel i e).computes.count k ≤ e.computes.count k + 1 ∧
    ((e.store k).dirty = false →
      (recompute env notify fuel i e).store k = e.store k ∧
      (recompute env notify fuel i e).computes.count k = e.computes.count k) := by
  have hs := recompute_step notify htopo fuel i e
  refine ⟨(hs.compBound k).1, fun hk => ⟨hs.cleanFixed k hk, ?_⟩⟩
  have h1 := hs.compMono k
  rcases Nat.lt_or_ge (e.computes.count k)
    ((recompute env notify fuel i e).computes.count k) with h | h
  · have := ((hs.compBound k).2 h).1
    rw [hk] at this
    cases this
  · omega

/-- A concrete diamond: root `0`, derived `1` and `2` both read `0`, derived
`3` reads `1` and `2`.  Node `3` has one watcher. -/
def dEnv : REnv Nat := fun i =>
  match i with
  | 0 => ⟨[], fun _ => some 42⟩
  | 1 => ⟨[0], fun vs => (vs.headD none).map (· + 1)⟩
  | 2 => ⟨[0], fun vs => (vs.headD none).map (· + 2)⟩
  | _ => ⟨[1, 2], fun vs => some ((vs.map (fun v => v.getD 0)).sum)⟩

theorem dEnv_topo : TopoEnv dEnv := by
  intro j d hd
  match j with
  | 0 => simp [dEnv] at hd
  | 1 => simp [dEnv] at hd; omega
  | 2 => simp [dEnv] at hd; omega
  | n + 3 => simp [dEnv] at hd; rcases hd with h | h <;> omega

/-- Initial world for the diamond: the root is already computed and clean,
the three derived nodes are dirty, node `3` is watched. -/
def dW : Eff Nat :=
  ⟨fun i =>
    match i with
    | 0 => ⟨[1, 2], [], false, false, some 42, 1, []⟩
    | 1 => ⟨[3], [], true, false, none, 0, []⟩
    | 2 => ⟨[3], [], true, false, none, 0, []⟩
    | _ => ⟨[], [7], true, false, none, 0, []⟩, [], [], []⟩

/-- The diamond with every node dirty: one wave from `3` pulls the shared
root `0` through both paths. -/
def dW0 : Eff Nat :=
  ⟨fun i =>
    match i with
    | 0 => ⟨[1, 2], [], true, false, none, 0, []⟩
    | 1 => ⟨[3], [], true, false, none, 0, []⟩
    | 2 => ⟨[3], [], true, false, none, 0, []⟩
    | _ => ⟨[], [7], true, false, none, 0, []⟩, [], [], []⟩

theorem claim_C3_witness :
    (recompute dEnv true 10 3 dW).computes.count 0 = dW.computes.count 0 ∧
    (recompute dEnv true 10 3 dW).computes.count 0 ≤ dW.computes.count 0 + 1 ∧
    (recompute dEnv true 10 3 dW).computes = [1, 2, 3] ∧
    (recompute dEnv true 10 3 dW0).computes = [0, 1, 2, 3] :=
  ⟨((claim_C3_shared_node_computes_at_most_once dEnv true dEnv_topo 10 3 dW 0).2
      (by decide)).2,
    (claim_C3_shared_node_computes_at_most_once dEnv true dEnv_topo 10 3 dW 0).1,
    by decide, by decide⟩

theorem countP_batch {i : Nat} (ws : List Nat) (c : Bool) :
    (if c then ws.map (fun w => (i, w)) else []).countP
      (fun p => p.1 = i) = if c then ws.length else 0 := by
  cases c
  · simp
  · simp only [if_pos]
    rw [List.countP_map]
    simp [Function.comp]

theorem ite_isEmpty_length (ws : List Nat) :
    (if !ws.isEmpty then ws.length else 0) = ws.length := by
  cases ws <;> simp

/-- Claim C2: when a derived node's recompute invokes its `computeFn` and
the returned value is equal (per `isEqual`, the node's equality predicate)
to the previously cached output, zero watcher callbacks are invoked for
that node and its version counter is unchanged; when the returned value
differs, the version is incremented and every watcher is notified once. -/
theorem claim_C2_equal_output_not_republished {V : Type} [DecidableEq V]
    (env : REnv V) (htopo : TopoEnv env) (fuel i : Nat) (e : Eff V)
    (hderived : isRoot (env i) = false)
    (hdirty : (e.store i).dirty = true)
    (hinvoke : (((depPull env true fuel i e).1.store i).value.isNone ||
      !fastDeepEqual ((depPull env true fuel i e).2.map Prod.snd)
        ((depPull env true fuel i e).1.store i).depsVersions) = true) :
    (fastDeepEqual ((env i).computeFn ((depPull env true fuel i e).2.map Prod.fst))
        (e.store i).value = true →
      ((recompute env true (fuel + 1) i e).store i).version = (e.store i).version ∧
      (recompute env true (fuel + 1) i e).notifs.countP (fun p => p.1 = i) =
        e.notifs.countP (fun p => p.1 = i)) ∧
    (fastDeepEqual ((env i).computeFn ((depPull env true fuel i e).2.map Prod.fst))
        (e.store i).value = false →
      ((recompute env true (fuel + 1) i e).store i).version = (e.store i).version + 1 ∧
      (recompute env true (fuel + 1) i e).notifs.countP (fun p => p.1 = i) =
        e.notifs.countP (fun p => p.1 = i) + (e.store i).watchers.length) := by
  have hab := depPull_at_self true htopo fuel i e
  simp only [depPull] at hab hinvoke ⊢
  rw [recompute_unfold hdirty, recomputeBranch_invoke_eq hderived hinvoke]
  rw [hab.1]
  constructor
  · intro heq
    rw [heq]
    simp only [Bool.not_true]
    constructor
    · rw [finishRecompute_store_self]
      simp
    · rw [finishRecompute_notifs, List.countP_append]
      simp [hab.2.2]
  · intro hne
    rw [hne]
    simp only [Bool.not_false]
    constructor
    · rw [finishRecompute_store_self]
      simp
    · rw [finishRecompute_notifs, List.countP_append]
      simp [hab.2.2, countP_batch, ite_isEmpty_length]
      cases hw : (e.store i).watchers with
      | nil => simp
      | cons w t => simp [List.countP_map, Function.comp]

/-- A two-node chain: root `0` (value 5), derived `1` reading `0` whose
compute function always returns 7. -/
def c2Env : REnv Nat := fun i =>
  match i with
  | 0 => ⟨[], fun _ => some 5⟩
  | _ => ⟨[0], fun _ => some 7⟩

theorem c2Env_topo : TopoEnv c2Env := by
  intro j d hd
  match j with
  | 0 => simp [c2Env] at hd
  | n + 1 => simp [c2Env] at hd; omega

/-- Node `1` is dirty with a stale dependency-version vector, already caches
`some 7` (equal to what the compute function will return) and has one
watcher. -/
def c2W : Eff Nat :=
  ⟨fun i =>
    match i with
    | 0 => ⟨[1], [], false, false, some 5, 1, []⟩
    | _ => ⟨[], [9], true, false, some 7, 4, [0]⟩, [], [], []⟩

/-- As `c2W`, but node `1` caches `some 3`, so the recomputed output differs. -/
def c2W' : Eff Nat :=
  ⟨fun i =>
    match i with
    | 0 => ⟨[1], [], false, false, some 5, 1, []⟩
    | _ => ⟨[], [9], true, false, some 3, 4, [0]⟩, [], [], []⟩

theorem claim_C2_witness :
    (((recompute c2Env true 2 1 c2W).store 1).version = (c2W.store 1).version ∧
     (recompute c2Env true 2 1 c2W).notifs.countP (fun p => p.1 = 1) =
       c2W.notifs.countP (fun p => p.1 = 1)) ∧
    (((recompute c2Env true 2 1 c2W').store 1).version = (c2W'.store 1).version + 1 ∧
     (recompute c2Env true 2 1 c2W').notifs.countP (fun p => p.1 = 1) =
       c2W'.notifs.countP (fun p => p.1 = 1) + (c2W'.store 1).watchers.length) :=
  ⟨(claim_C2_equal_output_not_republished c2Env c2Env_topo 1 1 c2W
      (by decide) (by decide) (by decide)).1 (by decide),
    (claim_C2_equal_output_not_republished c2Env c2Env_topo 1 1 c2W'
      (by decide) (by decide) (by decide)).2 (by decide)⟩

/-- Modelled from the spec: the spec's reaction node carries a per-node
`equalityFn`, set at registration time (defaulting to deep structural
equality, with identity-equality and always-equal or never-equal sentinels
allowed),
and a recompute republishes — increments the version and notifies — exactly
when the new output is not equal to the cached one under that node's own
function.  No such per-node field exists in the source (`reaction.ts`
hardcodes the imported `fast-deep-equal`), so this decision function is
modelled from the spec's words to compare the two. -/
def specPublishes {V : Type} (eqFn : Option V → Option V → Bool)
    (newVal cached : Option V) : Bool :=
  !(eqFn newVal cached)

/-- Claim C5, amended: a reaction node compares its recomputed output to its
cached output with the fixed, imported `fast-deep-equal` (structural
equality).  The equality predicate is not per-node and not overridable: the
publish decision of every derived recompute is exactly structural equality
of the new output against the cached one. -/
theorem claim_C5_amended_fixed_structural_equality {V : Type} [DecidableEq V]
    (env : REnv V) (htopo : TopoEnv env) (fuel i : Nat) (e : Eff V)
    (hderived : isRoot (env i) = false)
    (hdirty : (e.store i).dirty = true)
    (hinvoke : (((depPull env true fuel i e).1.store i).value.isNone ||
      !fastDeepEqual ((depPull env true fuel i e).2.map Prod.snd)
        ((depPull env true fuel i e).1.store i).depsVersions) = true) :
    ((recompute env true (fuel + 1) i e).store i).version =
      (if fastDeepEqual
          ((env i).computeFn ((depPull env true fuel i e).2.map Prod.fst))
          (e.store i).value
        then (e.store i).version else (e.store i).version + 1) ∧
    ((recompute env true (fuel + 1) i e).store i).value =
      (if fastDeepEqual
          ((env i).computeFn ((depPull env true fuel i e).2.map Prod.fst))
          (e.store i).value
        then (e.store i).value
        else (env i).computeFn ((depPull env true fuel i e).2.map Prod.fst)) := by
  have hab := depPull_at_self true htopo fuel i e
  simp only [depPull] at hab hinvoke ⊢
  rw [recompute_unfold hdirty, recomputeBranch_invoke_eq hderived hinvoke, hab.1]
  by_cases heq : fastDeepEqual
      ((env i).computeFn
        ((pullDeps (recompute env true fuel) (env i).deps e).2.map Prod.fst))
      (e.store i).value = true
  · simp only [heq]
    simp [finishRecompute_store_self]
  · have heq' : fastDeepEqual
        ((env i).computeFn
          ((pullDeps (recompute env true fuel) (env i).deps e).2.map Prod.fst))
        (e.store i).value = false := by
      revert heq
      cases fastDeepEqual
        ((env i).computeFn
          ((pullDeps (recompute env true fuel) (env i).deps e).2.map Prod.fst))
        (e.store i).value <;> simp
    simp only [heq']
    simp [finishRecompute_store_self]

/-- Chain for the C5 counterexample: derived node `1` always computes 7 but
caches 3; it carries one watcher. -/
def c5Env : REnv Nat := fun i =>
  match i with
  | 0 => ⟨[], fun _ => some 5⟩
  | _ => ⟨[0], fun _ => some 7⟩

theorem c5Env_topo : TopoEnv c5Env := by
  intro j d hd
  match j with
  | 0 => simp [c5Env] at hd
  | n + 1 => simp [c5Env] at hd; omega

def c5W : Eff Nat :=
  ⟨fun i =>
    match i with
    | 0 => ⟨[1], [], false, false, some 5, 1, []⟩
    | _ => ⟨[], [9], true, false, some 3, 4, [0]⟩, [], [], []⟩

/-- Claim C5 counterexample: registering the spec's always-equal sentinel as
the node's equality function would force `specPublishes = false` — no
version bump and no notification — yet the code's recompute of the very
same node increments the version and notifies its watcher, because the
comparison is the fixed structural `isEqual`, not a per-node function. -/
theorem claim_C5_counterexample :
    specPublishes (fun _ _ => true) (some 7) (some 3) = false ∧
    ((recompute c5Env true 2 1 c5W).store 1).version = (c5W.store 1).version + 1 ∧
    (recompute c5Env true 2 1 c5W).notifs = [(1, 9)] :=
  ⟨rfl, by decide, by decide⟩

theorem claim_C5_witness :
    ((recompute c5Env true 2 1 c5W).store 1).version = 5 ∧
    ((recompute c5Env true 2 1 c5W).store 1).value = some 7 := by
  have h := claim_C5_amended_fixed_structural_equality c5Env c5Env_topo 1 1 c5W
    (by decide) (by decide) (by decide)
  refine ⟨?_, ?_⟩
  · rw [h.1]; decide
  · rw [h.2]; decide

theorem nstate_set_dirty_noop {V : Type} (st : NState V) (h : st.dirty = true) :
    ({ st with dirty := true } : NState V) = st := by
  cases st
  simp_all

/-- The result of one `markDirty` on an alive leaf node (no dependents, some
watcher) that is not yet scheduled: dirty and scheduled are set and one
microtask is queued. -/
theorem markDirty_leaf_schedules {V : Type} (env : REnv V) (fuel i : Nat)
    (e : Eff V) (hdep : (e.store i).dependents = [])
    (hw : (e.store i).watchers ≠ []) (hs : (e.store i).scheduled = false) :
    markDirty env (fuel + 1) i e = { e with
      store := upd e.store i
        { e.store i with dirty := true, scheduled := true }
      tasks := e.tasks ++ [i] } := by
  have hwEmpty : (e.store i).watchers.isEmpty = false := by
    cases hwc : (e.store i).watchers with
    | nil => exact absurd hwc hw
    | cons w t => simp
  have hlist : markDirtyList (markDirty env fuel) (e.store i).dependents
      { e with store := upd e.store i { e.store i with dirty := true } } =
      { e with store := upd e.store i { e.store i with dirty := true } } := by
    rw [hdep]
    rfl
  simp only [markDirty]
  rw [hlist]
  rw [if_pos (by simp [isAlive, hwEmpty])]
  simp only [scheduleRecompute, upd_same]
  rw [if_neg (by simp [hs])]
  simp [upd_upd]

/-- `markDirty` on an alive leaf that is already dirty and scheduled is a
no-op (the `scheduled` flag makes scheduling idempotent). -/
theorem markDirty_leaf_idempotent {V : Type} (env : REnv V) (fuel i : Nat)
    (e : Eff V) (hdep : (e.store i).dependents = [])
    (hw : (e.store i).watchers ≠ []) (hd : (e.store i).dirty = true)
    (hs : (e.store i).scheduled = true) :
    markDirty env (fuel + 1) i e = e := by
  have hwEmpty : (e.store i).watchers.isEmpty = false := by
    cases hwc : (e.store i).watchers with
    | nil => exact absurd hwc hw
    | cons w t => simp
  have hfix : ({ e with store := upd e.store i { e.store i with dirty := true } } : Eff V) = e := by
    rw [nstate_set_dirty_noop _ hd, upd_self]
  have hlist : markDirtyList (markDirty env fuel) (e.store i).dependents
      { e with store := upd e.store i { e.store i with dirty := true } } =
      { e with store := upd e.store i { e.store i with dirty := true } } := by
    rw [hdep]
    rfl
  simp only [markDirty]
  rw [hlist, hfix]
  rw [if_pos (by simp [isAlive, hwEmpty])]
  simp [scheduleRecompute, hs]

/-- Claim C4: calling `markDirty` on an alive leaf node `n ≥ 1` times before
the coalescing microtask fires queues exactly one recompute task, and
flushing that queue performs exactly one recompute (one `computeFn`
invocation for a root node); `markDirty` on a node that is not alive (no
watchers, no dependents) sets its dirty flag — and marks its (empty) set of
dependents — but schedules nothing. -/
theorem claim_C4_markDirty_schedules_once {V : Type} [DecidableEq V]
    (env : REnv V) (fuel gfuel n i : Nat) :
    (∀ e : Eff V, (e.store i).dependents = [] → (e.store i).watchers ≠ [] →
      (e.store i).scheduled = false → e.tasks = [] → 1 ≤ n →
      (((markDirty env (fuel + 1) i)^[n] e).tasks = [i] ∧
       (isRoot (env i) = true →
         (flushTasks env (gfuel + 1) ((markDirty env (fuel + 1) i)^[n] e).tasks
           { ((markDirty env (fuel + 1) i)^[n] e) with tasks := [] }).computes =
           e.computes ++ [i]))) ∧
    (∀ e : Eff V, (e.store i).watchers = [] → (e.store i).dependents = [] →
      markDirty env (fuel + 1) i e =
        { e with store := upd e.store i { e.store i with dirty := true } }) := by
  constructor
  · intro e hdep hw hs htasks hn
    have hiter : ∀ m, 1 ≤ m → (markDirty env (fuel + 1) i)^[m] e = { e with
        store := upd e.store i
          { e.store i with dirty := true, scheduled := true }
        tasks := e.tasks ++ [i] } := by
      intro m
      induction m with
      | zero => omega
      | succ m ihm =>
        intro _
        by_cases hm : 1 ≤ m
        · rw [Function.iterate_succ_apply', ihm hm]
          exact markDirty_leaf_idempotent env fuel i _
            (by simp [hdep]) (by simpa using hw) (by simp) (by simp)
        · have hm0 : m = 0 := by omega
          subst hm0
          simpa using markDirty_leaf_schedules env fuel i e hdep hw hs
      -- the iterated world
    have hone := hiter n hn
    rw [hone, htasks]
    refine ⟨rfl, fun hroot => ?_⟩
    simp only [flushTasks]
    have hd1 : ((upd (upd e.store i
        { e.store i with dirty := true, scheduled := true }) i
        { (upd e.store i { e.store i with dirty := true, scheduled := true }) i
          with scheduled := false }) i).dirty = true := by
      simp [upd_same]
    rw [recompute_unfold (by exact hd1), recomputeBranch_root_eq hroot,
      finishRecompute_computes]
  · intro e hw hdep
    have hlist : markDirtyList (markDirty env fuel) (e.store i).dependents
        { e with store := upd e.store i { e.store i with dirty := true } } =
        { e with store := upd e.store i { e.store i with dirty := true } } := by
      rw [hdep]
      rfl
    simp only [markDirty]
    rw [hlist]
    rw [if_neg (by simp [isAlive, hw, hdep])]

/-- A single root node with one watcher, for the C4 witness. -/
def c4Env : REnv Nat := fun _ => ⟨[], fun _ => some 1⟩

def c4W : Eff Nat :=
  ⟨fun _ => ⟨[], [5], false, false, none, 0, []⟩, [], [], []⟩

/-- A node with neither watchers nor dependents (not alive). -/
def c4Wdead : Eff Nat :=
  ⟨fun _ => ⟨[], [], false, false, none, 0, []⟩, [], [], []⟩

theorem claim_C4_witness :
    (((markDirty c4Env 1 0)^[3] c4W).tasks = [0] ∧
     (flushTasks c4Env 1 ((markDirty c4Env 1 0)^[3] c4W).tasks
       ({ ((markDirty c4Env 1 0)^[3] c4W) with tasks := [] })).computes =
       c4W.computes ++ [0]) ∧
    markDirty c4Env 1 0 c4Wdead =
      ({ c4Wdead with
        store := upd c4Wdead.store 0 ({ c4Wdead.store 0 with dirty := true }) }) := by
  have h := claim_C4_markDirty_schedules_once c4Env 0 0 3 0
  have ha := h.1 c4W (by decide) (by decide) (by decide) rfl (by omega)
  exact ⟨⟨ha.1, ha.2 rfl⟩, h.2 c4Wdead (by decide) (by decide)⟩

/-- The fields `disposeIfUnused` resets are all in their initial state. -/
def DeadReset {V : Type} (st : NState V) : Prop :=
  st.value = none ∧ st.version = 0 ∧ st.depsVersions = [] ∧
    st.dirty = false ∧ st.scheduled = false

theorem deadReset_resetState {V : Type} (st : NState V) :
    DeadReset (resetState st) := by
  simp [DeadReset, resetState]

theorem isAlive_false_iff {V : Type} (st : NState V) :
    isAlive st = false ↔ st.watchers = [] ∧ st.dependents = [] := by
  simp only [isAlive]
  cases st.watchers <;> cases st.dependents <;> simp

/-- Everything `disposeIfUnused` guarantees, proved by strong induction on
the node index over a topologically numbered graph.  With enough fuel
(`i + 1` suffices, since dependencies have strictly smaller indices):
it is the identity on an alive node; it never changes any watcher list;
it only removes dependent-set entries; any node it changed that ends up
not alive has been reset; it never touches nodes above `i`; and on a dead
node it resets the node and removes it from each dependency's dependent
set. -/
theorem disposeIfUnused_master {V : Type} (env : REnv V) (htopo : TopoEnv env) :
    ∀ i fuel e, i + 1 ≤ fuel →
      ((isAlive (e.store i) = true → disposeIfUnused env fuel i e = e) ∧
       (∀ k, ((disposeIfUnused env fuel i e).store k).watchers =
          (e.store k).watchers) ∧
       (∀ k x, x ∈ ((disposeIfUnused env fuel i e).store k).dependents →
          x ∈ (e.store k).dependents) ∧
       (∀ k, (disposeIfUnused env fuel i e).store k ≠ e.store k →
          isAlive ((disposeIfUnused env fuel i e).store k) = false →
          DeadReset ((disposeIfUnused env fuel i e).store k)) ∧
       (∀ k, i < k → (disposeIfUnused env fuel i e).store k = e.store k) ∧
       (isAlive (e.store i) = false →
          DeadReset ((disposeIfUnused env fuel i e).store i) ∧
          (∀ d ∈ (env i).deps, i ∉ ((disposeIfUnused env fuel i e).store d).dependents))) := by
  intro i
  induction i using Nat.strong_induction_on with
  | _ i ih =>
    intro fuel e hfuel
    obtain ⟨f, rfl⟩ : ∃ f, fuel = f + 1 := ⟨fuel - 1, by omega⟩
    by_cases halive : isAlive (e.store i) = true
    · -- alive: the call returns immediately
      have heq : disposeIfUnused env (f + 1) i e = e := by
        simp only [disposeIfUnused]
        rw [if_pos halive]
      rw [heq]
      exact ⟨fun _ => rfl, fun _ => rfl, fun _ _ h => h, fun k h => absurd rfl h,
        fun _ _ => rfl, fun hdead => by rw [halive] at hdead; cases hdead⟩
    · have hdead : isAlive (e.store i) = false := by
        revert halive; cases isAlive (e.store i) <;> simp
      have heq : disposeIfUnused env (f + 1) i e =
          disposeList (disposeIfUnused env f) i (env i).deps
            { e with store := upd e.store i (resetState (e.store i)) } := by
        simp only [disposeIfUnused]
        rw [if_neg (by simp [hdead])]
      -- facts about the per-dependency loop, for any list of nodes below `i`
      have hloop : ∀ ds, (∀ d ∈ ds, d < i) → ∀ e',
          ((∀ k, ((disposeList (disposeIfUnused env f) i ds e').store k).watchers =
              (e'.store k).watchers) ∧
           (∀ k x, x ∈ ((disposeList (disposeIfUnused env f) i ds e').store k).dependents →
              x ∈ (e'.store k).dependents) ∧
           (∀ k, (disposeList (disposeIfUnused env f) i ds e').store k ≠ e'.store k →
              isAlive ((disposeList (disposeIfUnused env f) i ds e').store k) = false →
              DeadReset ((disposeList (disposeIfUnused env f) i ds e').store k)) ∧
           (∀ k, i ≤ k → (disposeList (disposeIfUnused env f) i ds e').store k =
              e'.store k) ∧
           (∀ d ∈ ds, i ∉ ((disposeList (disposeIfUnused env f) i ds e').store d).dependents)) := by
        intro ds
        induction ds with
        | nil =>
          intro _ e'
          exact ⟨fun _ => rfl, fun _ _ h => h, fun k h => absurd rfl h,
            fun _ _ => rfl, fun d hd => absurd hd (by simp)⟩
        | cons d rest ihds =>
          intro hds e'
          have hdi : d < i := hds d (by simp)
          have hdf : d + 1 ≤ f := by omega
          -- the state after deleting `i` from `d.dependents`
          set e1 : Eff V := { e' with
            store := upd e'.store d
              ({ e'.store d with
                dependents := (e'.store d).dependents.filter (fun x => x ≠ i) }) } with he1
          have hDd := ih d hdi f e1 hdf
          set m : Eff V := disposeIfUnused env f d e1 with hm
          have hrest := ihds (fun x hx => hds x (by simp [hx])) m
          have hunfold : disposeList (disposeIfUnused env f) i (d :: rest) e' =
              disposeList (disposeIfUnused env f) i rest m := by
            simp only [disposeList]
          rw [hunfold]
          -- the delete step componentwise
          have he1w : ∀ k, (e1.store k).watchers = (e'.store k).watchers := by
            intro k
            by_cases hk : k = d
            · subst hk; simp [he1]
            · simp [he1, upd_other _ _ hk]
          have he1d : ∀ k x, x ∈ (e1.store k).dependents →
              x ∈ (e'.store k).dependents := by
            intro k x hx
            by_cases hk : k = d
            · subst hk
              simp only [he1, upd_same] at hx
              exact (List.mem_filter.1 hx).1
            · simpa [he1, upd_other _ _ hk] using hx
          have he1ne : ∀ k, k ≠ d → e1.store k = e'.store k := by
            intro k hk
            simp [he1, upd_other _ _ hk]
          -- the combined step `delete; dispose d` satisfies the reset property
          have hstep3 : ∀ k, m.store k ≠ e'.store k →
              isAlive (m.store k) = false → DeadReset (m.store k) := by
            intro k hne hdk
            by_cases hk : k = d
            · rw [hk] at hne hdk ⊢
              by_cases ha1 : isAlive (e1.store d) = true
              · rw [hDd.1 ha1] at hdk ⊢
                rw [ha1] at hdk
                cases hdk
              · have ha1' : isAlive (e1.store d) = false := by
                  revert ha1; cases isAlive (e1.store d) <;> simp
                exact (hDd.2.2.2.2.2 ha1').1
            · have h1 := he1ne k hk
              by_cases hm1 : m.store k = e1.store k
              · exact absurd (hm1.trans h1) hne
              · exact hDd.2.2.2.1 k hm1 hdk
          refine ⟨?_, ?_, ?_, ?_, ?_⟩
          · intro k
            rw [hrest.1 k, hDd.2.1 k, he1w k]
          · intro k x hx
            exact he1d k x (hDd.2.2.1 k x (hrest.2.1 k x hx))
          · -- compose the reset property over the two parts
            intro k hne hdk
            by_cases hr : (disposeList (disposeIfUnused env f) i rest m).store k = m.store k
            · rw [hr] at hdk ⊢
              exact hstep3 k (fun h => hne (by rw [hr, h])) hdk
            · exact hrest.2.2.1 k hr hdk
          · intro k hk
            rw [hrest.2.2.2.1 k hk, hDd.2.2.2.2.1 k (by omega), he1ne k (by omega)]
          · intro x hx
            rcases List.mem_cons.1 hx with rfl | hx'
            · -- `i` was deleted from `x.dependents` and never re-added
              have h0 : i ∉ (e1.store x).dependents := by
                simp [he1, upd_same, List.mem_filter]
              have h1 : i ∉ (m.store x).dependents := fun hc =>
                h0 (hDd.2.2.1 x i hc)
              exact fun hc => h1 (hrest.2.1 x i hc)
            · exact hrest.2.2.2.2 x hx'
      have hl := hloop (env i).deps (fun d hd => htopo i d hd)
        { e with store := upd e.store i (resetState (e.store i)) }
      rw [heq]
      have hresetw : ∀ k,
          (((upd e.store i (resetState (e.store i)))) k).watchers =
            (e.store k).watchers := by
        intro k
        by_cases hk : k = i
        · subst hk; simp [resetState]
        · simp [upd_other _ _ hk]
      have hresetd : ∀ k,
          (((upd e.store i (resetState (e.store i)))) k).dependents =
            (e.store k).dependents := by
        intro k
        by_cases hk : k = i
        · subst hk; simp [resetState]
        · simp [upd_other _ _ hk]
      refine ⟨?_, ?_, ?_, ?_, ?_, ?_⟩
      · intro h; rw [h] at hdead; cases hdead
      · intro k
        rw [hl.1 k]
        exact hresetw k
      · intro k x hx
        have := hl.2.1 k x hx
        rwa [hresetd k] at this
      · intro k hne hdk
        by_cases hk :
            (disposeList (disposeIfUnused env f) i (env i).deps
              { e with store := upd e.store i (resetState (e.store i)) }).store k =
            (upd e.store i (resetState (e.store i))) k
        · rw [hk] at hdk ⊢
          by_cases hki : k = i
          · rw [hki, upd_same]
            exact deadReset_resetState _
          · exact absurd (hk.trans (upd_other _ _ hki)) hne
        · exact hl.2.2.1 k hk hdk
      · intro k hk
        rw [hl.2.2.2.1 k (by omega)]
        show (upd e.store i (resetState (e.store i))) k = e.store k
        exact upd_other _ _ (by omega)
      · intro _
        refine ⟨?_, ?_⟩
        · rw [hl.2.2.2.1 i (le_refl i)]
          show DeadReset ((upd e.store i (resetState (e.store i))) i)
          rw [upd_same]
          exact deadReset_resetState _
        · exact hl.2.2.2.2

/-- Claim C9: removing the last watcher of a node that has no dependents
disposes it — cached value, version, dependency-version vector, dirty and
scheduled flags are reset and the watcher list is empty; the node is removed
from every dependency's dependent set; and every dependency that has thereby
become not alive (no watchers, no remaining dependents) has been disposed
the same way.  `hwf` is the well-formedness invariant maintained by
`ensureAliveWith`: a watched node is in each of its dependencies' dependent
sets. -/
theorem claim_C9_unwatch_last_watcher_disposes {V : Type} (env : REnv V)
    (htopo : TopoEnv env) (fuel i w : Nat) (e : Eff V)
    (hfuel : i + 1 ≤ fuel)
    (hw : (e.store i).watchers = [w])
    (hdep : (e.store i).dependents = [])
    (hwf : ∀ d ∈ (env i).deps, i ∈ (e.store d).dependents) :
    (DeadReset ((unwatch env fuel i w e).store i) ∧
     ((unwatch env fuel i w e).store i).watchers = []) ∧
    (∀ d ∈ (env i).deps, i ∉ ((unwatch env fuel i w e).store d).dependents) ∧
    (∀ d ∈ (env i).deps, ((unwatch env fuel i w e).store d).watchers = [] →
      ((unwatch env fuel i w e).store d).dependents = [] →
      DeadReset ((unwatch env fuel i w e).store d)) := by
  have hmem : w ∈ (e.store i).watchers := by rw [hw]; simp
  have herase : (e.store i).watchers.erase w = [] := by
    rw [hw]; simp
  have heq : unwatch env fuel i w e = disposeIfUnused env fuel i
      ({ e with
        store := upd e.store i
          ({ e.store i with watchers := (e.store i).watchers.erase w }) }) := by
    simp only [unwatch]
    rw [if_pos hmem, if_pos (by simp [herase])]
  have hdead1 : isAlive
      (({ e with
        store := upd e.store i
          ({ e.store i with watchers := (e.store i).watchers.erase w }) } : Eff V).store i) =
      false := by
    simp [isAlive, herase, hdep]
  have hM := disposeIfUnused_master env htopo i fuel
    ({ e with
      store := upd e.store i
        ({ e.store i with watchers := (e.store i).watchers.erase w }) }) hfuel
  rw [heq]
  refine ⟨⟨(hM.2.2.2.2.2 hdead1).1, ?_⟩, (hM.2.2.2.2.2 hdead1).2, ?_⟩
  · rw [hM.2.1 i]
    simp [herase]
  · intro d hd hwd hdd
    have hdlt : d < i := htopo i d hd
    have hi1 : i ∈ (({ e with
        store := upd e.store i
          ({ e.store i with watchers := (e.store i).watchers.erase w }) } : Eff V).store d).dependents := by
      show i ∈ ((upd e.store i _ ) d).dependents
      rw [upd_other _ _ (by omega)]
      exact hwf d hd
    have hne : (disposeIfUnused env fuel i
        ({ e with
          store := upd e.store i
            ({ e.store i with watchers := (e.store i).watchers.erase w }) })).store d ≠
        (({ e with
          store := upd e.store i
            ({ e.store i with watchers := (e.store i).watchers.erase w }) } : Eff V).store d) := by
      intro hcontra
      exact ((hM.2.2.2.2.2 hdead1).2 d hd) (hcontra ▸ hi1)
    exact hM.2.2.2.1 d hne ((isAlive_false_iff _).2 ⟨hwd, hdd⟩)

/-- Two-node chain for the C9 witness: watched derived node `1` over root
`0`; removing the only watcher must dispose both. -/
def c9Env : REnv Nat := fun i =>
  match i with
  | 0 => ⟨[], fun _ => some 5⟩
  | _ => ⟨[0], fun vs => vs.headD none⟩

theorem c9Env_topo : TopoEnv c9Env := by
  intro j d hd
  match j with
  | 0 => simp [c9Env] at hd
  | n + 1 => simp [c9Env] at hd; omega

def c9W : Eff Nat :=
  ⟨fun i =>
    match i with
    | 0 => ⟨[1], [], false, false, some 5, 2, []⟩
    | _ => ⟨[], [4], false, false, some 5, 1, [2]⟩, [], [], []⟩

theorem claim_C9_witness :
    ((DeadReset ((unwatch c9Env 2 1 4 c9W).store 1) ∧
      ((unwatch c9Env 2 1 4 c9W).store 1).watchers = []) ∧
     (∀ d ∈ (c9Env 1).deps, 1 ∉ ((unwatch c9Env 2 1 4 c9W).store d).dependents) ∧
     (∀ d ∈ (c9Env 1).deps, ((unwatch c9Env 2 1 4 c9W).store d).watchers = [] →
       ((unwatch c9Env 2 1 4 c9W).store d).dependents = [] →
       DeadReset ((unwatch c9Env 2 1 4 c9W).store d))) ∧
    ((unwatch c9Env 2 1 4 c9W).store 0).value = none ∧
    ((unwatch c9Env 2 1 4 c9W).store 0).version = 0 ∧
    ((unwatch c9Env 2 1 4 c9W).store 0).dependents = [] :=
  ⟨claim_C9_unwatch_last_watcher_disposes c9Env c9Env_topo 2 1 4 c9W
      (by omega) (by decide) (by decide) (by decide),
    by decide, by decide, by decide⟩

/-! ## The interceptor pipeline (`interceptor.ts`)

An `EventVector` is a non-empty array `[id, ...params]`, possibly carrying
scheduling metadata in a `meta` property; parameters are modelled as strings.
Interceptor phase functions are `Context → Context` in the source, running
over ambient global state and JS exceptions; here a phase is
`Ctx → W → Except JSErr (Ctx × W)` for a world type `W`.  Since a `Context`
holds its remaining `queue` and processed `stack` of interceptors, the
queue and stack store interceptor names of type `I` resolved through an
environment `IEnv`, which breaks the type-level recursion. -/

structure Event where
  id : String
  args : List String
  meta : List String
deriving Repr, DecidableEq

inductive Dir where
  | before
  | after
deriving Repr, DecidableEq

/-- JavaScript exception values as far as the pipeline inspects them:
an error thrown by user code, the wrapper built by `exceptionToExInfo`
(direction, interceptor id and the original error, which is also the
`cause`), and the copy built by `mergeExData` that adds the event vector to
the error data (preserving the `cause`). -/
inductive JSErr where
  | user : String → JSErr
  | wrapped : Dir → String → JSErr → JSErr
  | withEvent : Event → JSErr → JSErr
deriving Repr, DecidableEq

/-- The `cause` property: `exceptionToExInfo` sets it to the original error;
`mergeExData` copies it; a plain error has none. -/
def cause : JSErr → Option JSErr
  | .user _ => none
  | .wrapped _ _ o => some o
  | .withEvent _ e => cause e

/-- An immer patch; only its `path` is inspected by the code under
verification (`op` and `value` are never read). -/
structure Patch where
  path : List String
deriving Repr, DecidableEq

/-- One entry of `context.effects`: a `[key, value]` pair.  (The source
filters out entries that are not arrays of length two; pairs satisfy that
shape by construction.) -/
abbrev Effect : Type := String × String

/-- The `Context` record (`types.ts`): coeffects (of which the embedding
keeps the event; `draftDb` and injected coeffects are not read by any
verified path), accumulated effects, the produced `newDb` and `patches`,
the remaining interceptor queue, the processed stack, and the
`originalException` flag. -/
structure Ctx (I D : Type) where
  event : Event
  effects : List Effect
  newDb : D
  patches : List Patch
  queue : List I
  stack : List I
  originalException : Bool
deriving DecidableEq

/-- An interceptor phase function. -/
def Phase (I W D : Type) : Type :=
  Ctx I D → W → Except JSErr (Ctx I D × W)

/-- `{id, before?, after?}`. -/
structure Icpt (I W D : Type) where
  id : String
  before : Option (Phase I W D)
  after : Option (Phase I W D)

/-- Resolution of interceptor names. -/
def IEnv (I W D : Type) : Type := I → Icpt I W D

def phaseOf {I W D : Type} (icpt : Icpt I W D) : Dir → Option (Phase I W D)
  | .before => icpt.before
  | .after => icpt.after

/-- `invokeInterceptorFn(context, interceptor, direction)`: a missing phase
returns the context unchanged; when `context.originalException` is set the
phase runs outside the try/catch so its exception propagates unwrapped;
otherwise an exception is wrapped by `exceptionToExInfo` with the
direction, the interceptor's id and the original error. -/
def invokeInterceptorFn {I W D : Type} (ctx : Ctx I D) (w : W)
    (icpt : Icpt I W D) (d : Dir) : Except JSErr (Ctx I D × W) :=
  match phaseOf icpt d with
  | none => .ok (ctx, w)
  | some fn =>
    if ctx.originalException then fn ctx w
    else
      match fn ctx w with
      | .ok r => .ok r
      | .error e => .error (JSErr.wrapped d icpt.id e)

/-- `invokeInterceptors(context, direction)`: pop the queue front; in the
`before` direction push the popped interceptor onto the stack; invoke the
phase on the updated context; loop on the returned context's queue.  The
`while` loop is embedded with fuel: a phase may prepend to the queue, so
termination is not structural (with fuel `0` and a non-empty queue the
embedding stops where the source would keep looping). -/
def invokeInterceptors {I W D : Type} (env : IEnv I W D) (d : Dir) :
    Nat → Ctx I D → W → Except JSErr (Ctx I D × W)
  | 0, ctx, w => .ok (ctx, w)
  | fuel + 1, ctx, w =>
    match ctx.queue with
    | [] => .ok (ctx, w)
    | next :: rest =>
      match invokeInterceptorFn
          { ctx with
            queue := rest
            stack := if d = Dir.before then ctx.stack ++ [next] else ctx.stack }
          w (env next) d with
      | .error e => .error e
      | .ok (ctx', w') => invokeInterceptors env d fuel ctx' w'

/-- `changeDirection`: reverse the stack into a fresh queue. -/
def changeDirection {I D : Type} (ctx : Ctx I D) : Ctx I D :=
  { ctx with queue := ctx.stack.reverse, stack := [] }

/-- `createContext(eventV, interceptors)`: fresh coeffects holding the
event, empty effects, empty `newDb` (`d0` models the `{}` literal), empty
patches, the interceptor list as the queue, an empty stack, and
`originalException := false`. -/
def createContext {I D : Type} (d0 : D) (eventV : Event) (icpts : List I) :
    Ctx I D :=
  { event := eventV
    effects := []
    newDb := d0
    patches := []
    queue := icpts
    stack := []
    originalException := false }

/-- `executeInterceptors`: before walk, direction change, after walk. -/
def executeInterceptors {I W D : Type} (env : IEnv I W D) (fuel : Nat)
    (ctx : Ctx I D) (w : W) : Except JSErr (Ctx I D × W) :=
  match invokeInterceptors env Dir.before fuel ctx w with
  | .error e => .error e
  | .ok (c1, w1) => invokeInterceptors env Dir.after fuel (changeDirection c1) w1

/-- `execute(eventV, interceptors)` with the error-handler registry lookup
supplied as `errH`.  With no handler the interceptors run with
`originalException := true`, so a phase exception propagates unwrapped to
the caller.  With a handler, a caught exception `e` is merged with the
event vector, the handler receives `(e.cause || e, reflexError)`, and when
the handler returns normally the original (fresh) context is returned. -/
def execute {I W D : Type} (env : IEnv I W D) (fuel : Nat)
    (errH : Option (JSErr → JSErr → W → Except JSErr W)) (d0 : D)
    (eventV : Event) (icpts : List I) (w : W) : Except JSErr (Ctx I D × W) :=
  let ctx := createContext d0 eventV icpts
  match errH with
  | none => executeInterceptors env fuel { ctx with originalException := true } w
  | some h =>
    match executeInterceptors env fuel ctx w with
    | .ok r => .ok r
    | .error e =>
      let reflexError := JSErr.withEvent eventV e
      match h ((cause e).getD e) reflexError w with
      | .ok w' => .ok (ctx, w')
      | .error e2 => .error e2

/-- An interceptor whose two phases only record their own execution — id and
direction — by appending to `context.effects`.  A family of these makes the
execution order of phases observable. -/
def logIcpt {W D : Type} (s : String) : Icpt String W D :=
  { id := s
    before := some (fun ctx w =>
      .ok ({ ctx with effects := ctx.effects ++ [("before", s)] }, w))
    after := some (fun ctx w =>
      .ok ({ ctx with effects := ctx.effects ++ [("after", s)] }, w)) }

def logEnv {W D : Type} : IEnv String W D := fun s => logIcpt s

theorem invokeInterceptorFn_log_before {W D : Type} (ctx : Ctx String D)
    (w : W) (s : String) :
    invokeInterceptorFn ctx w (logIcpt (W := W) s) Dir.before =
      .ok ({ ctx with effects := ctx.effects ++ [("before", s)] }, w) := by
  simp only [invokeInterceptorFn, phaseOf, logIcpt]
  split <;> rfl

theorem invokeInterceptorFn_log_after {W D : Type} (ctx : Ctx String D)
    (w : W) (s : String) :
    invokeInterceptorFn ctx w (logIcpt (W := W) s) Dir.after =
      .ok ({ ctx with effects := ctx.effects ++ [("after", s)] }, w) := by
  simp only [invokeInterceptorFn, phaseOf, logIcpt]
  split <;> rfl

theorem invokeInterceptors_log_before {W D : Type} :
    ∀ (l : List String) (ctx : Ctx String D) (w : W), ctx.queue = l →
      invokeInterceptors logEnv Dir.before l.length ctx w =
        .ok ({ ctx with
          queue := []
          stack := ctx.stack ++ l
          effects := ctx.effects ++ l.map (fun s => ("before", s)) }, w) := by
  intro l
  induction l with
  | nil =>
    intro ctx w hq
    simp [invokeInterceptors, hq]
    cases ctx
    simp_all
  | cons s rest ihl =>
    intro ctx w hq
    simp only [invokeInterceptors, List.length_cons, hq, logEnv,
      invokeInterceptorFn_log_before, ihl]
    simp

theorem invokeInterceptors_log_after {W D : Type} :
    ∀ (l : List String) (ctx : Ctx String D) (w : W), ctx.queue = l →
      invokeInterceptors logEnv Dir.after l.length ctx w =
        .ok ({ ctx with
          queue := []
          effects := ctx.effects ++ l.map (fun s => ("after", s)) }, w) := by
  intro l
  induction l with
  | nil =>
    intro ctx w hq
    simp [invokeInterceptors, hq]
    cases ctx
    simp_all
  | cons s rest ihl =>
    intro ctx w hq
    simp only [invokeInterceptors, List.length_cons, hq, logEnv,
      invokeInterceptorFn_log_after, ihl]
    simp

/-- Claim C6: for every list of interceptors around one event, the `after`
phases run in strict reverse order of the `before` phases: the before walk
processes the queue front to back, pushing each completed interceptor onto
the stack; the stack is reversed into a new queue; the after walk processes
that queue — as witnessed by the observation log of a family of recording
interceptors (nested-middleware semantics). -/
theorem claim_C6_after_runs_in_reverse_order {W D : Type} (d0 : D) (w : W)
    (ids : List String) (ev : Event) :
    executeInterceptors (logEnv (W := W) (D := D)) ids.length
        (createContext d0 ev ids) w =
      .ok ({ event := ev
             effects := ids.map (fun s => ("before", s)) ++
               ids.reverse.map (fun s => ("after", s))
             newDb := d0
             patches := []
             queue := []
             stack := []
             originalException := false }, w) := by
  unfold executeInterceptors
  rw [invokeInterceptors_log_before ids (createContext d0 ev ids) w rfl]
  split
  next e he => simp at he
  next c1 w1 h =>
    simp only [Except.ok.injEq, Prod.mk.injEq] at h
    obtain ⟨rfl, rfl⟩ := h
    rw [show ids.length = ids.reverse.length from (List.length_reverse ids).symm]
    rw [invokeInterceptors_log_after ids.reverse _ w
      (by simp [changeDirection, createContext])]
    simp [changeDirection, createContext]

/-- Claim C7: exception plumbing of the pipeline.
1. A phase exception is wrapped with the direction, the throwing
   interceptor's id and the original error.
2. With `originalException` set the raw exception propagates unwrapped.
3. With a registered error handler, the handler receives
   `(originalError, wrappedError)` — the wrapped error carrying the
   originating event — and the pipeline returns the context as created, no
   further phases running.
4. With no handler registered, the pipeline runs with `originalException`
   set and the (unwrapped) exception propagates to the caller, the event
   queue. -/
theorem claim_C7_exception_wrapping_and_handler {I W D : Type}
    (env : IEnv I W D) (fuel : Nat) (d0 : D) (ev : Event) (icpts : List I)
    (w : W) :
    (∀ (ctx : Ctx I D) (icpt : Icpt I W D) (d : Dir) (fn : Phase I W D)
        (err : JSErr),
      phaseOf icpt d = some fn → ctx.originalException = false →
      fn ctx w = .error err →
      invokeInterceptorFn ctx w icpt d = .error (JSErr.wrapped d icpt.id err)) ∧
    (∀ (ctx : Ctx I D) (icpt : Icpt I W D) (d : Dir) (fn : Phase I W D)
        (err : JSErr),
      phaseOf icpt d = some fn → ctx.originalException = true →
      fn ctx w = .error err →
      invokeInterceptorFn ctx w icpt d = .error err) ∧
    (∀ (h : JSErr → JSErr → W → Except JSErr W) (err : JSErr) (w' : W),
      executeInterceptors env fuel (createContext d0 ev icpts) w = .error err →
      h ((cause err).getD err) (JSErr.withEvent ev err) w = .ok w' →
      execute env fuel (some h) d0 ev icpts w = .ok (createContext d0 ev icpts, w')) ∧
    (∀ err : JSErr,
      executeInterceptors env fuel
        { createContext d0 ev icpts with originalException := true } w = .error err →
      execute env fuel none d0 ev icpts w = .error err) := by
  refine ⟨?_, ?_, ?_, ?_⟩
  · intro ctx icpt d fn err hp hflag hfn
    simp [invokeInterceptorFn, hp, hflag, hfn]
  · intro ctx icpt d fn err hp hflag hfn
    simp [invokeInterceptorFn, hp, hflag, hfn]
  · intro h err w' hexec hh
    simp [execute, hexec, hh]
  · intro err hexec
    simp [execute, hexec]

/-- One interceptor whose before phase throws, for the C7 witness. -/
def throwIcpt : Icpt String Unit Unit :=
  { id := "boom"
    before := some (fun _ _ => .error (.user "bad"))
    after := none }

def c7Env : IEnv String Unit Unit := fun _ => throwIcpt

def ev7 : Event := ⟨"evt", [], []⟩

theorem claim_C7_witness :
    (invokeInterceptorFn (createContext () ev7 ["boom"]) () throwIcpt Dir.before =
      .error (JSErr.wrapped Dir.before "boom" (JSErr.user "bad"))) ∧
    (invokeInterceptorFn
        { createContext () ev7 (["boom"] : List String) with originalException := true }
        () throwIcpt Dir.before = .error (JSErr.user "bad")) ∧
    (execute c7Env 1 (some (fun _ _ _ => .ok ())) () ev7 ["boom"] () =
      .ok (createContext () ev7 ["boom"], ())) ∧
    (execute c7Env 1 none () ev7 ["boom"] () = .error (JSErr.user "bad")) := by
  have h := claim_C7_exception_wrapping_and_handler c7Env 1 () ev7 ["boom"] ()
  refine ⟨?_, ?_, ?_, ?_⟩
  · exact h.1 (createContext () ev7 ["boom"]) throwIcpt Dir.before _
      (JSErr.user "bad") rfl rfl rfl
  · exact h.2.1 { createContext () ev7 (["boom"] : List String) with
      originalException := true } throwIcpt Dir.before _ (JSErr.user "bad")
      rfl rfl rfl
  · exact h.2.2.1 (fun _ _ _ => .ok ())
      (JSErr.wrapped Dir.before "boom" (JSErr.user "bad")) () rfl rfl
  · exact h.2.2.2 (JSErr.user "bad") rfl

/-! ## The invalidation bridge (`db.ts`)

`updateAppDbWithPatches(newDb, patches)` commits the new snapshot and
collects the top-level keys of the patches into the module-level
`reactionsQueue` (a `Set` of serialized one-element subscription vectors),
scheduling one `scheduleAfterRender` flush while none is outstanding.  The
flush calls `markDirty` on each implicated root reaction and clears the
set.  `flushCount` counts the `scheduleAfterRender` invocations so that the
embedding can observe how often a flush was scheduled. -/

/-- `Set.add`: append if not already present (insertion order). -/
def setAdd (l : List String) (x : String) : List String :=
  if x ∈ l then l else l ++ [x]

/-- `JSON.stringify([rootKey])` — the serialized one-element subscription
vector used as the reaction registry key (key escaping aside). -/
def subVectorKey (rootKey : String) : String :=
  "[\"" ++ rootKey ++ "\"]"

/-- The module state of `db.ts` together with the reaction-graph world:
`appDb`, the pending `reactionsQueue`, the `reactionsScheduled` flag, the
number of flushes scheduled so far, and the graph. -/
structure BState (V D : Type) where
  appDb : D
  reactionsQueue : List String
  reactionsScheduled : Bool
  flushCount : Nat
  graph : Eff V

/-- One iteration of the `for (const patch of patches)` loop: take the
patch's first path segment as the top-level key, look up the root reaction
registered under the serialized `[rootKey]` vector, and add the key to the
pending set; a reaction that is not a root is an error that is logged and
skipped. -/
def collectPatch {V D : Type} (env : REnv V) (reg : String → Option Nat)
    (acc : BState V D) (p : Patch) : BState V D :=
  match p.path with
  | [] => acc
  | rootKey :: _ =>
    let key := subVectorKey rootKey
    match reg key with
    | none => acc
    | some r =>
      if isRoot (env r) then
        { acc with reactionsQueue := setAdd acc.reactionsQueue key }
      else acc

/-- `updateAppDbWithPatches` (`db.ts`): nothing happens on an empty patch
list; otherwise commit `appDb := newDb`, collect each patch's top-level
key, and — if the pending set is non-empty and no flush is outstanding —
set `reactionsScheduled` and schedule one flush. -/
def updateAppDbWithPatches {V D : Type} (env : REnv V)
    (reg : String → Option Nat) (newDb : D) (patches : List Patch)
    (s : BState V D) : BState V D :=
  if patches.length > 0 then
    let s1 := { s with appDb := newDb }
    let s2 := patches.foldl (collectPatch env reg) s1
    if s2.reactionsQueue.length > 0 && !s2.reactionsScheduled then
      { s2 with reactionsScheduled := true, flushCount := s2.flushCount + 1 }
    else s2
  else s

/-- The `for (const subVectorKey of reactionsQueue)` loop inside the
scheduled flush: look each pending key up in the registry and `markDirty`
the reaction if it is still registered. -/
def flushFold {V : Type} (env : REnv V) (reg : String → Option Nat)
    (fuel : Nat) : List String → Eff V → Eff V
  | [], g => g
  | key :: rest, g =>
    flushFold env reg fuel rest
      (match reg key with
       | some r => markDirty env fuel r g
       | none => g)

/-- The scheduled flush callback: `markDirty` every reaction still
registered for a pending key, then clear the queue and reset the flag. -/
def flushBridge {V D : Type} (env : REnv V) (reg : String → Option Nat)
    (fuel : Nat) (s : BState V D) : BState V D :=
  { s with
    graph := flushFold env reg fuel s.reactionsQueue s.graph
    reactionsQueue := []
    reactionsScheduled := false }

theorem setAdd_idem (l : List String) (x : String) :
    setAdd (setAdd l x) x = setAdd l x := by
  by_cases h : x ∈ l
  · simp [setAdd, h]
  · simp [setAdd, h]

theorem collectPatch_fields {V D : Type} (env : REnv V)
    (reg : String → Option Nat) (acc : BState V D) (p : Patch) :
    ((collectPatch env reg acc p).appDb = acc.appDb ∧
     (collectPatch env reg acc p).reactionsScheduled = acc.reactionsScheduled ∧
     (collectPatch env reg acc p).flushCount = acc.flushCount ∧
     (collectPatch env reg acc p).graph = acc.graph) := by
  unfold collectPatch
  rcases p.path with _ | ⟨rootKey, rest⟩
  · exact ⟨rfl, rfl, rfl, rfl⟩
  · rcases hreg : reg (subVectorKey rootKey) with _ | r
    · simp [hreg]
    · by_cases hroot : isRoot (env r) = true <;> simp [hreg, hroot]

theorem collectFold_fields {V D : Type} (env : REnv V)
    (reg : String → Option Nat) :
    ∀ (ps : List Patch) (acc : BState V D),
      ((ps.foldl (collectPatch env reg) acc).appDb = acc.appDb ∧
       (ps.foldl (collectPatch env reg) acc).reactionsScheduled =
         acc.reactionsScheduled ∧
       (ps.foldl (collectPatch env reg) acc).flushCount = acc.flushCount ∧
       (ps.foldl (collectPatch env reg) acc).graph = acc.graph) := by
  intro ps
  induction ps with
  | nil => intro acc; exact ⟨rfl, rfl, rfl, rfl⟩
  | cons p rest ih =>
    intro acc
    have h1 := collectPatch_fields env reg acc p
    have h2 := ih (collectPatch env reg acc p)
    simp only [List.foldl_cons]
    exact ⟨h2.1.trans h1.1, h2.2.1.trans h1.2.1, h2.2.2.1.trans h1.2.2.1,
      h2.2.2.2.trans h1.2.2.2⟩

/-- Folding a non-empty run of patches that all share the top-level key `k`
(with a root reaction registered under it) adds exactly one entry. -/
theorem collectFold_same_key {V D : Type} (env : REnv V)
    (reg : String → Option Nat) (k : String) (r : Nat)
    (hreg : reg (subVectorKey k) = some r) (hroot : isRoot (env r) = true) :
    ∀ (ps : List Patch) (acc : BState V D), ps ≠ [] →
      (∀ p ∈ ps, p.path.head? = some k) →
      (ps.foldl (collectPatch env reg) acc).reactionsQueue =
        setAdd acc.reactionsQueue (subVectorKey k) := by
  have hstep : ∀ (p : Patch) (acc : BState V D), p.path.head? = some k →
      collectPatch env reg acc p =
        { acc with reactionsQueue := setAdd acc.reactionsQueue (subVectorKey k) } := by
    intro p acc hp
    rcases hpath : p.path with _ | ⟨a, rest⟩
    · rw [hpath] at hp; cases hp
    · rw [hpath] at hp
      simp only [List.head?_cons, Option.some.injEq] at hp
      subst hp
      simp [collectPatch, hpath, hreg, hroot]
  intro ps
  induction ps with
  | nil => intro acc h; exact absurd rfl h
  | cons p rest ih =>
    intro acc _ hall
    simp only [List.foldl_cons]
    rw [hstep p acc (hall p (by simp))]
    rcases hrest : rest with _ | ⟨q, t⟩
    · simp
    · rw [← hrest]
      rw [ih _ (by rw [hrest]; simp) (fun x hx => hall x (by simp [hx]))]
      simp [setAdd_idem]

theorem scheduleRecompute_dirty {V : Type} (i k : Nat) (e : Eff V) :
    ((scheduleRecompute i e).store k).dirty = (e.store k).dirty := by
  by_cases h : (e.store i).scheduled
  · simp [scheduleRecompute, h]
  · by_cases hk : k = i
    · subst hk
      simp [scheduleRecompute, h, upd]
    · simp [scheduleRecompute, h, upd, hk]

theorem markDirtyList_dirty_mono {V : Type} (rec : Nat → Eff V → Eff V)
    (hrec : ∀ j (e : Eff V) k, (e.store k).dirty = true →
      ((rec j e).store k).dirty = true) :
    ∀ (ds : List Nat) (e : Eff V) (k : Nat), (e.store k).dirty = true →
      ((markDirtyList rec ds e).store k).dirty = true := by
  intro ds
  induction ds with
  | nil => intro e k h; exact h
  | cons d rest ih => intro e k h; exact ih _ _ (hrec d e k h)

/-- `markDirty` never clears a dirty flag anywhere in the graph. -/
theorem markDirty_dirty_mono {V : Type} (env : REnv V) :
    ∀ (fuel j : Nat) (e : Eff V) (k : Nat), (e.store k).dirty = true →
      ((markDirty env fuel j e).store k).dirty = true := by
  intro fuel
  induction fuel with
  | zero => intro j e k h; exact h
  | succ f ih =>
    intro j e k h
    have hbase : ((({ e with
        store := upd e.store j { e.store j with dirty := true } } : Eff V)).store k).dirty
        = true := by
      show ((upd e.store j { e.store j with dirty := true }) k).dirty = true
      by_cases hk : k = j
      · subst hk
        rw [upd_same]
      · rw [upd_other _ _ hk]
        exact h
    have hmid := markDirtyList_dirty_mono (markDirty env f)
      (fun j2 e2 k2 h2 => ih j2 e2 k2 h2) (e.store j).dependents _ k hbase
    simp only [markDirty]
    split
    · rw [scheduleRecompute_dirty]
      exact hmid
    · exact hmid

/-- `markDirty` with positive fuel sets the target node's dirty flag. -/
theorem markDirty_sets_dirty {V : Type} (env : REnv V) (fuel j : Nat)
    (e : Eff V) : ((markDirty env (fuel + 1) j e).store j).dirty = true := by
  have hbase : ((({ e with
      store := upd e.store j { e.store j with dirty := true } } : Eff V)).store j).dirty
      = true := by
    show ((upd e.store j { e.store j with dirty := true }) j).dirty = true
    rw [upd_same]
  have hmid := markDirtyList_dirty_mono (markDirty env fuel)
    (fun j2 e2 k2 h2 => markDirty_dirty_mono env fuel j2 e2 k2 h2)
    (e.store j).dependents _ j hbase
  simp only [markDirty]
  split
  · rw [scheduleRecompute_dirty]
    exact hmid
  · exact hmid

theorem flushFold_dirty_mono {V : Type} (env : REnv V)
    (reg : String → Option Nat) (fuel r : Nat) :
    ∀ (l : List String) (g : Eff V), (g.store r).dirty = true →
      ((flushFold env reg fuel l g).store r).dirty = true := by
  intro l
  induction l with
  | nil => intro g h; exact h
  | cons key rest ih =>
    intro g h
    simp only [flushFold]
    rcases hreg : reg key with _ | r2
    · exact ih _ h
    · exact ih _ (markDirty_dirty_mono env fuel r2 g r h)

/-- Every pending key whose reaction is still registered comes out of the
flush loop dirty. -/
theorem flushFold_marks {V : Type} (env : REnv V)
    (reg : String → Option Nat) (fuel r : Nat) (key : String)
    (hreg : reg key = some r) :
    ∀ (l : List String) (g : Eff V), key ∈ l →
      ((flushFold env reg (fuel + 1) l g).store r).dirty = true := by
  intro l
  induction l with
  | nil => intro g h; cases h
  | cons k2 rest ih =>
    intro g hmem
    rcases List.mem_cons.mp hmem with hk | hk
    · subst hk
      simp only [flushFold, hreg]
      exact flushFold_dirty_mono env reg (fuel + 1) r rest _
        (markDirty_sets_dirty env fuel r g)
    · simp only [flushFold]
      rcases hreg2 : reg k2 with _ | r2
      · exact ih _ hk
      · exact ih _ hk

/-- Claim C8: after a commit with a non-empty patch list whose patches all
touch the same top-level key with a registered root reaction, the bridge
(1) installs the new snapshot and adds exactly one entry for that key to
the pending set, however many patches there were (same-key collapse);
(2) never schedules a second flush while one is outstanding
(`reactionsScheduled` stays set and the flush count does not grow); and
(3) the flush marks every still-registered pending reaction dirty, then
clears the pending set and resets the scheduled flag. -/
theorem claim_C8_bridge_collapse_and_single_flush {V D : Type}
    (env : REnv V) (reg : String → Option Nat) (newDb : D) :
    (∀ (k : String) (r : Nat) (patches : List Patch) (s : BState V D),
       patches ≠ [] → (∀ p ∈ patches, p.path.head? = some k) →
       reg (subVectorKey k) = some r → isRoot (env r) = true →
       (updateAppDbWithPatches env reg newDb patches s).appDb = newDb ∧
       (updateAppDbWithPatches env reg newDb patches s).reactionsQueue =
         setAdd s.reactionsQueue (subVectorKey k)) ∧
    (∀ (patches : List Patch) (s : BState V D),
       s.reactionsScheduled = true →
       (updateAppDbWithPatches env reg newDb patches s).flushCount =
         s.flushCount ∧
       (updateAppDbWithPatches env reg newDb patches s).reactionsScheduled =
         true) ∧
    (∀ (fuel : Nat) (s : BState V D),
       (flushBridge env reg (fuel + 1) s).reactionsQueue = [] ∧
       (flushBridge env reg (fuel + 1) s).reactionsScheduled = false ∧
       (∀ key ∈ s.reactionsQueue, ∀ r, reg key = some r →
         (((flushBridge env reg (fuel + 1) s).graph).store r).dirty = true)) := by
  refine ⟨?_, ?_, ?_⟩
  · intro k r patches s hne hall hreg hroot
    have happ : (patches.foldl (collectPatch env reg)
        { s with appDb := newDb }).appDb = newDb :=
      (collectFold_fields env reg patches _).1
    have hq := collectFold_same_key env reg k r hreg hroot patches
      { s with appDb := newDb } hne hall
    simp only [updateAppDbWithPatches]
    rw [if_pos (List.length_pos.mpr hne)]
    split
    · exact ⟨happ, hq⟩
    · exact ⟨happ, hq⟩
  · intro patches s hsched
    rcases hp : patches with _ | ⟨p, rest⟩
    · simp [updateAppDbWithPatches, hsched]
    · rw [← hp]
      have hne : patches ≠ [] := by rw [hp]; simp
      have hf := collectFold_fields env reg patches
        ({ s with appDb := newDb } : BState V D)
      have hs2 : (patches.foldl (collectPatch env reg)
          { s with appDb := newDb }).reactionsScheduled = true :=
        hf.2.1.trans hsched
      simp only [updateAppDbWithPatches]
      rw [if_pos (List.length_pos.mpr hne)]
      split
      · next hcond =>
          rw [hs2] at hcond
          simp at hcond
      · exact ⟨hf.2.2.1, hs2⟩
  · intro fuel s
    refine ⟨rfl, rfl, ?_⟩
    intro key hmem r hreg
    exact flushFold_marks env reg fuel r key hreg s.reactionsQueue s.graph hmem

/-- A one-root world for the C8 witness: node 0 is a root reaction. -/
def c8Env : REnv Nat := fun _ => { deps := [], computeFn := fun _ => some 0 }

def c8reg : String → Option Nat :=
  fun key => if key = subVectorKey "a" then some 0 else none

def c8W : Eff Nat :=
  { store := fun _ =>
      { dependents := []
        watchers := []
        dirty := false
        scheduled := false
        value := none
        version := 0
        depsVersions := [] }
    computes := []
    notifs := []
    tasks := [] }

def c8S : BState Nat Nat :=
  { appDb := 0
    reactionsQueue := []
    reactionsScheduled := false
    flushCount := 0
    graph := c8W }

def c8Patches : List Patch := [⟨["a", "x"]⟩, ⟨["a", "y"]⟩]

theorem claim_C8_witness :
    (updateAppDbWithPatches c8Env c8reg (7 : Nat) c8Patches c8S).appDb = 7 ∧
    (updateAppDbWithPatches c8Env c8reg (7 : Nat) c8Patches c8S).reactionsQueue
      = setAdd c8S.reactionsQueue (subVectorKey "a") ∧
    (updateAppDbWithPatches c8Env c8reg (7 : Nat) c8Patches
      { c8S with reactionsScheduled := true }).flushCount =
      ({ c8S with reactionsScheduled := true } : BState Nat Nat).flushCount ∧
    (((flushBridge c8Env c8reg 1
        { c8S with reactionsQueue := [subVectorKey "a"] }).graph).store 0).dirty
      = true := by
  have h := claim_C8_bridge_collapse_and_single_flush c8Env c8reg (7 : Nat)
  have h1 := h.1 "a" 0 c8Patches c8S (by decide)
    (by decide) (by decide) (by decide)
  have h2 := h.2.1 c8Patches { c8S with reactionsScheduled := true } rfl
  have h3 := (h.2.2 0 { c8S with reactionsQueue := [subVectorKey "a"] }).2.2
    (subVectorKey "a") (by decide) 0 (by decide)
  exact ⟨h1.1, h1.2, h2.1, h3⟩

/-- Claim C10: `updateAppDbWithPatches` with an empty patch list is the
identity on the bridge state — the snapshot reference is not replaced, no
key joins the pending set, and no flush is scheduled. -/
theorem claim_C10_empty_patch_list_skips_commit {V D : Type} (env : REnv V)
    (reg : String → Option Nat) (newDb : D) (s : BState V D) :
    updateAppDbWithPatches env reg newDb [] s = s := by
  simp [updateAppDbWithPatches]

/-! ## The event pipeline composed (`events.ts`, `fx.ts`)

`handle(eventV)` looks the event handler up, builds the chain
`[doFxInterceptor, injectGlobalInterceptors, ...custom,
eventHandlerInterceptor(handler)]` and calls `interceptor.execute`.  The
world the phases act on is the bridge state `BState` (the `appDb` snapshot
lives there), so committing through `updateAppDbWithPatches` is the only
world write in the chain.  At module load `events.ts` registers
`defaultErrorHandler` under `('error', 'event-handler')`, so `execute`
always finds a handler — and that handler rethrows the original error. -/

/-- An event handler as run inside `produceWithPatches`: from the current
snapshot and the event it produces the new snapshot, the patch list and the
returned effects — or throws.  (`eventV.slice(1)` is packaged inside the
event; the draft mechanics are opaque to the pipeline.) -/
def EventHandler (D : Type) : Type :=
  D → Event → Except JSErr (D × List Patch × List Effect)

/-- `doFxInterceptor` (`fx.ts`): the `after` phase commits
`(context.newDb, context.patches)` through `updateAppDbWithPatches` and
then runs each `[key, val]` effect through its registered handler (a
missing handler, and an error inside one, are logged and skipped, so
effect handlers are total here).  The `context.newDb && context.patches`
truthiness guard skips the commit while the fx-handler has not run; in the
embedding the initial `patches := []` makes the commit a no-op in exactly
that situation (`updateAppDbWithPatches` ignores empty patch lists). -/
def doFxIcpt {V D : Type} (env : REnv V) (reg : String → Option Nat)
    (fxReg : String → Option (String → BState V D → BState V D)) :
    Icpt Nat (BState V D) D :=
  { id := "do-fx"
    before := none
    after := some (fun ctx w =>
      let w1 := updateAppDbWithPatches env reg ctx.newDb ctx.patches w
      let w2 := ctx.effects.foldl (fun acc eff =>
        match fxReg eff.1 with
        | some f => f eff.2 acc
        | none => acc) w1
      .ok (ctx, w2)) }

/-- `injectGlobalInterceptors` (`events.ts`): prepend the global
interceptors to the context's remaining queue. -/
def injectGlobalsIcpt {W D : Type} (gs : List Nat) : Icpt Nat W D :=
  { id := "inject-global-interceptors"
    before := some (fun ctx w => .ok ({ ctx with queue := gs ++ ctx.queue }, w))
    after := none }

/-- `eventHandlerInterceptor(handler)` (`events.ts`): the `before` phase
runs the handler inside `produceWithPatches(getAppDb(), ...)` — reading the
world's snapshot — and on success stores `newDb` and `patches` on the
context and appends the returned effects; a handler exception propagates
out of `produceWithPatches`. -/
def fxHandlerIcpt {V D : Type} (h : EventHandler D) :
    Icpt Nat (BState V D) D :=
  { id := "fx-handler"
    before := some (fun ctx w =>
      match h w.appDb ctx.event with
      | .error e => .error e
      | .ok (newDb, patches, effects) =>
        .ok ({ ctx with
          newDb := newDb
          patches := patches
          effects := ctx.effects ++ effects }, w))
    after := none }

/-- The interceptor-name resolution for one `handle` call: `0` is
`doFxInterceptor`, `1` is `injectGlobalInterceptors`, `2` is the
`eventHandlerInterceptor` built from the event's handler, and `n + 3` is
the `n`-th custom interceptor. -/
def chainEnv {V D : Type} (env : REnv V) (reg : String → Option Nat)
    (fxReg : String → Option (String → BState V D → BState V D))
    (gs : List Nat) (h : EventHandler D)
    (custom : Nat → Icpt Nat (BState V D) D) : IEnv Nat (BState V D) D :=
  fun n =>
    match n with
    | 0 => doFxIcpt env reg fxReg
    | 1 => injectGlobalsIcpt gs
    | 2 => fxHandlerIcpt h
    | n + 3 => custom n

/-- `defaultErrorHandler` (`events.ts`), registered at module load: log and
rethrow the original error. -/
def defaultErrorHandler {W : Type} (originalError _reflexError : JSErr)
    (_w : W) : Except JSErr W :=
  .error originalError

/-- `handle(eventV)` (`events.ts`): no registered handler is an error log
and a plain return; otherwise run `execute` over
`[doFx, injectGlobals] ++ custom ++ [fxHandler]` with the always-registered
`defaultErrorHandler`.  From the queue's point of view `handle` either
returns (with the possibly-updated world) or throws. -/
def handle {V D : Type} (env : REnv V) (reg : String → Option Nat)
    (fxReg : String → Option (String → BState V D → BState V D))
    (evReg : String → Option (EventHandler D)) (icptsOf : String → List Nat)
    (gs : List Nat) (custom : Nat → Icpt Nat (BState V D) D) (d0 : D)
    (fuel : Nat) (ev : Event) (w : BState V D) :
    Except JSErr (BState V D) :=
  match evReg ev.id with
  | none => .ok w
  | some h =>
    match execute (chainEnv env reg fxReg gs h custom) fuel
        (some defaultErrorHandler) d0 ev
        ([0, 1] ++ (icptsOf ev.id).map (fun n => n + 3) ++ [2]) w with
    | .ok (_, w2) => .ok w2
    | .error e => .error e

/-! ## The event queue FSM (`router.ts`) -/

inductive FSMState where
  | idle
  | scheduled
  | running
  | paused
deriving Repr, DecidableEq

/-- The trigger together with its `arg`: `add-event` carries the event and
`exception` carries the thrown value (`pause` carries a scheduling
function, which only schedules the asynchronous `resume`). -/
inductive FSMTrigger where
  | addEvent : Event → FSMTrigger
  | runQueue
  | pause
  | exception : JSErr → FSMTrigger
  | finishRun
  | resume
deriving Repr, DecidableEq

/-- The `EventQueue` object state: `fsmState`, `queue`, and the world the
event handler acts on. -/
structure EQ (W : Type) where
  fsmState : FSMState
  queue : List Event
  world : W

/-- `metaKeys.find(k => laterFns[k])`: `laterFns` has exactly the keys
`flush` and `yield`. -/
def hasLaterKey (ev : Event) : Bool :=
  ev.meta.any (fun k => k == "flush" || k == "yield")

/-- `processFirstEvent`: read `queue[0]`, run the event handler inside
`try`, and `shift` the queue on success; any exception is caught and fed
to `fsmTrigger('exception')` (which purges).  With an empty queue the
handler receives `undefined` and `eventV[0]` throws a `TypeError` inside
the same `try`.  The `Option JSErr` output is an exception escaping the
call — `processFirstEvent` itself never lets one escape.  The world only
changes on a normal handler return: the chain's sole world write is the
do-fx `after` phase, which runs only when every phase succeeded. -/
def processFirstEvent {W : Type} (handler : Event → W → Except JSErr W)
    (fsmT : FSMTrigger → EQ W → EQ W × Option JSErr) (q : EQ W) :
    EQ W × Option JSErr :=
  match q.queue with
  | [] => fsmT (.exception (JSErr.user "TypeError")) q
  | ev :: rest =>
    match handler ev q.world with
    | .ok w2 => ({ q with queue := rest, world := w2 }, none)
    | .error e => fsmT (.exception e) q

/-- The `while (n > 0)` loop of `runQueue`, with `n` captured once up
front.  Each iteration reads `queue[0]`; after a mid-drain purge that read
yields `undefined` and `nextEvent.meta` throws a `TypeError` outside any
`try`, which escapes the tick.  An event carrying a `flush`/`yield` meta
key pauses the queue instead.  When `n` runs out, `finish-run` fires. -/
def runQueueLoop {W : Type} (handler : Event → W → Except JSErr W)
    (fsmT : FSMTrigger → EQ W → EQ W × Option JSErr) :
    Nat → EQ W → EQ W × Option JSErr
  | 0, q => fsmT .finishRun q
  | n + 1, q =>
    match q.queue with
    | [] => (q, some (JSErr.user "TypeError"))
    | ev :: _ =>
      if hasLaterKey ev then fsmT .pause q
      else
        match processFirstEvent handler fsmT q with
        | (q1, some e) => (q1, some e)
        | (q1, none) => runQueueLoop handler fsmT n q1

def runQueue {W : Type} (handler : Event → W → Except JSErr W)
    (fsmT : FSMTrigger → EQ W → EQ W × Option JSErr) (q : EQ W) :
    EQ W × Option JSErr :=
  runQueueLoop handler fsmT q.queue.length q

/-- `resume`: `processFirstEvent(); runQueue()`. -/
def resumeAct {W : Type} (handler : Event → W → Except JSErr W)
    (fsmT : FSMTrigger → EQ W → EQ W × Option JSErr) (q : EQ W) :
    EQ W × Option JSErr :=
  match processFirstEvent handler fsmT q with
  | (q1, some e) => (q1, some e)
  | (q1, none) => runQueue handler fsmT q1

/-- `fsmTrigger(trigger, arg)` (`router.ts`): the `switch` over
`fsmState:trigger`, setting the new state before running the action.  The
asynchronous schedulings (`runNextTick`, the `pause` later-fn) only queue
a future trigger and are not part of the synchronous step.  The `default`
case logs and returns with the state unchanged.  Fuel bounds the nesting
of synchronous triggers (`run-queue` → loop → `exception`/`finish-run`);
with fuel `0` the embedding stops. -/
def fsmTrigger {W : Type} (handler : Event → W → Except JSErr W) :
    Nat → FSMTrigger → EQ W → EQ W × Option JSErr
  | 0, _, q => (q, none)
  | fuel + 1, trig, q =>
    match q.fsmState, trig with
    | .idle, .addEvent ev =>
      ({ q with fsmState := .scheduled, queue := q.queue ++ [ev] }, none)
    | .scheduled, .addEvent ev => ({ q with queue := q.queue ++ [ev] }, none)
    | .scheduled, .runQueue =>
      runQueue handler (fsmTrigger handler fuel) { q with fsmState := .running }
    | .running, .addEvent ev => ({ q with queue := q.queue ++ [ev] }, none)
    | .running, .pause => ({ q with fsmState := .paused }, none)
    | .running, .exception _ =>
      ({ q with fsmState := .idle, queue := [] }, none)
    | .running, .finishRun =>
      if q.queue.isEmpty then ({ q with fsmState := .idle }, none)
      else ({ q with fsmState := .scheduled }, none)
    | .paused, .addEvent ev => ({ q with queue := q.queue ++ [ev] }, none)
    | .paused, .resume =>
      resumeAct handler (fsmTrigger handler fuel) { q with fsmState := .running }
    | _, _ => (q, none)

/-- A dispatch whose event handler throws leaves `handle` with the original
error: the fx-handler `before` phase fails, `execute`'s error handler (the
default one) rethrows, and nothing ever wrote the world. -/
theorem handle_handler_throws {V D : Type} (env : REnv V)
    (reg : String → Option Nat)
    (fxReg : String → Option (String → BState V D → BState V D))
    (evReg : String → Option (EventHandler D)) (icptsOf : String → List Nat)
    (custom : Nat → Icpt Nat (BState V D) D) (d0 : D) (pfuel : Nat)
    (ev : Event) (w : BState V D) (h : EventHandler D) (err : JSErr)
    (hreg : evReg ev.id = some h) (hcust : icptsOf ev.id = [])
    (hthrow : h w.appDb ev = .error err) :
    handle env reg fxReg evReg icptsOf [] custom d0 (pfuel + 1 + 1 + 1) ev w
      = .error err := by
  simp only [handle, hreg, hcust, List.map_nil, List.nil_append]
  simp [execute, executeInterceptors, createContext, invokeInterceptors,
    invokeInterceptorFn, phaseOf, chainEnv, doFxIcpt, injectGlobalsIcpt,
    fxHandlerIcpt, defaultErrorHandler, hthrow, cause]

/-- Claim C1: with the queue `ev :: rest` due to run, if `ev`'s registered
event handler throws, the dispatch tick (`scheduled` + `run-queue`) ends
with the entire pending queue purged — the failing event and every
unrelated pending event — the FSM back in `idle`, and the world (hence the
`appDb` snapshot) exactly as before: the commit lives in the do-fx `after`
phase, which never runs once the handler's `before` phase has thrown. -/
theorem claim_C1_handler_throw_purges_queue_state_unchanged {V D : Type}
    (env : REnv V) (reg : String → Option Nat)
    (fxReg : String → Option (String → BState V D → BState V D))
    (evReg : String → Option (EventHandler D)) (icptsOf : String → List Nat)
    (custom : Nat → Icpt Nat (BState V D) D) (d0 : D) (pfuel fuel : Nat)
    (ev : Event) (rest : List Event) (w : BState V D) (h : EventHandler D)
    (err : JSErr) (hreg : evReg ev.id = some h)
    (hcust : icptsOf ev.id = []) (hthrow : h w.appDb ev = .error err)
    (hmeta : hasLaterKey ev = false) :
    (fsmTrigger
        (handle env reg fxReg evReg icptsOf [] custom d0 (pfuel + 1 + 1 + 1))
        (fuel + 1 + 1) FSMTrigger.runQueue
        ⟨FSMState.scheduled, ev :: rest, w⟩).1 =
      ⟨FSMState.idle, [], w⟩ := by
  have hhandle := handle_handler_throws env reg fxReg evReg icptsOf custom d0
    pfuel ev w h err hreg hcust hthrow
  simp only [fsmTrigger, runQueue, List.length_cons]
  simp only [runQueueLoop, hmeta, Bool.false_eq_true, if_false,
    processFirstEvent, hhandle, fsmTrigger]
  rcases rest with _ | ⟨r, rs⟩
  · simp [runQueueLoop, fsmTrigger]
  · simp [runQueueLoop]

def c1Env : REnv Nat := fun _ => { deps := [], computeFn := fun _ => some 0 }

def c1reg : String → Option Nat := fun _ => none

def c1G : Eff Nat :=
  { store := fun _ =>
      { dependents := []
        watchers := []
        dirty := false
        scheduled := false
        value := none
        version := 0
        depsVersions := [] }
    computes := []
    notifs := []
    tasks := [] }

def c1W : BState Nat Nat :=
  { appDb := 0
    reactionsQueue := []
    reactionsScheduled := false
    flushCount := 0
    graph := c1G }

def c1custom : Nat → Icpt Nat (BState Nat Nat) Nat :=
  fun _ => { id := "noop", before := none, after := none }

def c1evReg : String → Option (EventHandler Nat) :=
  fun i => if i = "boom" then some (fun _ _ => .error (JSErr.user "boom"))
           else none

def c1ev : Event := ⟨"boom", [], []⟩

def c1ev2 : Event := ⟨"other", [], []⟩

theorem claim_C1_witness :
    (fsmTrigger
        (handle c1Env c1reg (fun _ => none) c1evReg (fun _ => []) []
          c1custom 0 (0 + 1 + 1 + 1))
        (0 + 1 + 1) FSMTrigger.runQueue
        ⟨FSMState.scheduled, [c1ev, c1ev2], c1W⟩).1 =
      ⟨FSMState.idle, [], c1W⟩ :=
  claim_C1_handler_throw_purges_queue_state_unchanged c1Env c1reg
    (fun _ => none) c1evReg (fun _ => []) c1custom 0 0 0 c1ev [c1ev2] c1W
    (fun _ _ => .error (JSErr.user "boom")) (JSErr.user "boom")
    (by rfl) (by rfl) (by rfl) (by rfl)

end Reflex
